import Mathlib

/-!
# Verification of the DataConfigTool core against its specification

This file shallowly embeds the core logic of the repository — the
multi-scope primary-key constraint cache (`src/utils/pk_cache.py`), the
Excel-to-YAML reconciliation engine (`src/utils/sync.py` together with the
value coercion of `src/utils/models.py`), and the binary export codec
(`src/utils/binary_exporter.py`) — and proves or refutes the frozen claims
about them.

Modelling conventions:
* Python dicts are embedded as functions into `Option` (for the caches) or
  as insertion-ordered association lists (for row records, whose ordering
  is observable through YAML serialization).
* Python exceptions become `Except String`; where the mutated module-level
  cache state is observable even on failure, the error branch carries the
  cache state at raise time (`Except (String × PkCache) …`).
* Library calls whose behaviour the repository does not define (AES-CBC
  encryption, the random IV, IEEE-754 single-precision bit conversion,
  `json.loads`, `repr`/`str` of Python floats) are abstracted as explicit
  function parameters; everything the repository itself computes is
  embedded concretely.
-/

namespace DataConfigTool

/-- Scope enumeration from `src/utils/enums.py` (`KeyType`). -/
inductive KeyType where
  | TABLE
  | GROUP
  | GLOBAL
  deriving DecidableEq, Repr

/-- The state of the module-level primary-key caches of
`src/utils/pk_cache.py`: `_group_pk_caches`, `_global_pk_cache` and
`_all_pk_pool`.  Python dicts are embedded as functions into `Option`;
the values record exactly what the source stores (`table_name` for the
group cache, `(group_name, table_name)` for the other two). -/
@[ext] structure PkCache where
  group_pk_caches : String → Int → Option String
  global_pk_cache : Int → Option (String × String)
  all_pk_pool : Int → Option (String × String)

/-- The empty cache state (all three dicts empty, as after
`clear_pk_caches`). -/
def pkEmpty : PkCache :=
  { group_pk_caches := fun _ _ => none
    global_pk_cache := fun _ => none
    all_pk_pool := fun _ => none }

/-- `validate_primary_key` from `src/utils/pk_cache.py` (lines 33–58).
The `if group_name not in _group_pk_caches` initialisation inserts an
empty dict and is invisible in the function-map embedding.  The three
conflict checks and the three insertions follow the source line by line. -/
def validate_primary_key (st : PkCache) (group_name table_name : String)
    (pk_value : Int) (key_type : KeyType) : Except String PkCache :=
  if (st.group_pk_caches group_name pk_value).isSome then
    .error ("主键冲突：Key " ++ toString pk_value ++ " 已存在分组 "
      ++ group_name ++ " 的表 " ++ table_name ++ " 中")
  else if (st.global_pk_cache pk_value).isSome then
    .error ("主键冲突：Key " ++ toString pk_value ++ " 已存在于全局缓存")
  else if key_type = KeyType.GLOBAL ∧ (st.all_pk_pool pk_value).isSome then
    .error ("主键冲突：Key " ++ toString pk_value ++ " 已存在于主键池")
  else
    .ok
      { group_pk_caches := fun g k =>
          if g = group_name ∧ k = pk_value then some table_name
          else st.group_pk_caches g k
        global_pk_cache := fun k =>
          if key_type = KeyType.GLOBAL ∧ k = pk_value then
            some (group_name, table_name)
          else st.global_pk_cache k
        all_pk_pool := fun k =>
          if k = pk_value then some (group_name, table_name)
          else st.all_pk_pool k }

/-- One iteration of the removal loop of `apply_pk_diff`
(`src/utils/pk_cache.py` lines 73–79): delete `pk_value` from the group
cache of `group_name` and from the all-pool, and — only when
`key_type == KeyType.GLOBAL` — from the global cache.  The `if … in …`
guards before each `del` coincide with the unconditional map update. -/
def removePk (group_name : String) (key_type : KeyType) (st : PkCache)
    (pk_value : Int) : PkCache :=
  { group_pk_caches := fun g k =>
      if g = group_name ∧ k = pk_value then none else st.group_pk_caches g k
    global_pk_cache := fun k =>
      if key_type = KeyType.GLOBAL ∧ k = pk_value then none
      else st.global_pk_cache k
    all_pk_pool := fun k =>
      if k = pk_value then none else st.all_pk_pool k }

/-- The addition loop of `apply_pk_diff` (lines 81–83): call
`validate_primary_key` for each added key in order, propagating the first
conflict.  (The source's `int(pk_value)` is the identity on the `Int`
keys used at this layer.) -/
def addPks (group_name table_name : String) (key_type : KeyType)
    (st : PkCache) : List Int → Except String PkCache
  | [] => .ok st
  | pk :: rest =>
    match validate_primary_key st group_name table_name pk key_type with
    | .error e => .error e
    | .ok st2 => addPks group_name table_name key_type st2 rest

/-- `apply_pk_diff` from `src/utils/pk_cache.py` (lines 60–83): first the
whole removal loop, then the whole addition loop.  Python's sets are
embedded as duplicate-free lists; removal order is irrelevant and
additions are all-or-nothing per key. -/
def apply_pk_diff (st : PkCache) (group_name table_name : String)
    (remove_list add_lists : List Int) (key_type : KeyType) :
    Except String PkCache :=
  addPks group_name table_name key_type
    (remove_list.foldl (removePk group_name key_type) st) add_lists

/-- Success test for `Except` results. -/
def exOk {ε α : Type _} : Except ε α → Bool
  | .ok _ => true
  | .error _ => false

/-- On success, `validate_primary_key` returns exactly the input state with
`pk` registered in the group cache and the all-pool, and in the global
cache when (and only when) the scope is `GLOBAL`. -/
theorem validate_ok_eq {st : PkCache} {g t : String} {pk : Int}
    {kt : KeyType} {st' : PkCache}
    (h : validate_primary_key st g t pk kt = .ok st') :
    st' =
      { group_pk_caches := fun g2 k =>
          if g2 = g ∧ k = pk then some t else st.group_pk_caches g2 k
        global_pk_cache := fun k =>
          if kt = KeyType.GLOBAL ∧ k = pk then some (g, t)
          else st.global_pk_cache k
        all_pk_pool := fun k =>
          if k = pk then some (g, t) else st.all_pk_pool k } := by
  unfold validate_primary_key at h
  split at h
  · simp at h
  · split at h
    · simp at h
    · split at h
      · simp at h
      · injection h with h
        exact h.symm

/-- `validate_primary_key` fails exactly when one of the three conflict
conditions of the source holds. -/
theorem validate_fails_iff (st : PkCache) (g t : String) (pk : Int)
    (kt : KeyType) :
    exOk (validate_primary_key st g t pk kt) = false ↔
      (st.group_pk_caches g pk).isSome ∨ (st.global_pk_cache pk).isSome ∨
        (kt = KeyType.GLOBAL ∧ (st.all_pk_pool pk).isSome) := by
  by_cases hA : (st.group_pk_caches g pk).isSome
  · simp [validate_primary_key, hA, exOk]
  · by_cases hB : (st.global_pk_cache pk).isSome
    · simp [validate_primary_key, hA, hB, exOk]
    · by_cases hC : kt = KeyType.GLOBAL ∧ (st.all_pk_pool pk).isSome
      · simp [validate_primary_key, hA, hB, hC, exOk]
      · simp [validate_primary_key, hA, hB, hC, exOk]

/-- After the removal loop, a key's group-cache entry for the diffed group
is erased exactly when the key was in the removal list. -/
theorem remFold_group (g : String) (kt : KeyType) (pk : Int) (g2 : String) :
    ∀ (l : List Int) (st : PkCache),
      (l.foldl (removePk g kt) st).group_pk_caches g2 pk =
        if g2 = g ∧ pk ∈ l then none else st.group_pk_caches g2 pk := by
  intro l
  induction l with
  | nil => intro st; simp
  | cons x l ih =>
      intro st
      rw [List.foldl_cons, ih]
      by_cases hg : g2 = g
      · by_cases hx : pk = x
        · simp [hg, hx, removePk]
        · by_cases hl : pk ∈ l <;> simp [hg, hx, hl, removePk]
      · simp [hg, removePk]

/-- After the removal loop, a key's all-pool entry is erased exactly when
the key was in the removal list. -/
theorem remFold_all (g : String) (kt : KeyType) (pk : Int) :
    ∀ (l : List Int) (st : PkCache),
      (l.foldl (removePk g kt) st).all_pk_pool pk =
        if pk ∈ l then none else st.all_pk_pool pk := by
  intro l
  induction l with
  | nil => intro st; simp
  | cons x l ih =>
      intro st
      rw [List.foldl_cons, ih]
      by_cases hx : pk = x
      · simp [hx, removePk]
      · by_cases hl : pk ∈ l <;> simp [hx, hl, removePk]

/-- After the removal loop, a key's global-cache entry is erased only when
the scope argument is `GLOBAL`; at any other scope the global cache is
untouched by removals. -/
theorem remFold_global (g : String) (kt : KeyType) (pk : Int) :
    ∀ (l : List Int) (st : PkCache),
      (l.foldl (removePk g kt) st).global_pk_cache pk =
        if kt = KeyType.GLOBAL ∧ pk ∈ l then none
        else st.global_pk_cache pk := by
  intro l
  induction l with
  | nil => intro st; simp
  | cons x l ih =>
      intro st
      rw [List.foldl_cons, ih]
      by_cases hk : kt = KeyType.GLOBAL
      · by_cases hx : pk = x
        · simp [hk, hx, removePk]
        · by_cases hl : pk ∈ l <;> simp [hk, hx, hl, removePk]
      · simp [hk, removePk]

/-- A successful addition loop that never adds `pk` leaves all three cache
entries for `pk` unchanged. -/
theorem addPks_ok_preserves {g t : String} {kt : KeyType} {pk : Int} :
    ∀ (add : List Int) (st st' : PkCache), pk ∉ add →
      addPks g t kt st add = .ok st' →
      (∀ g2, st'.group_pk_caches g2 pk = st.group_pk_caches g2 pk) ∧
      st'.global_pk_cache pk = st.global_pk_cache pk ∧
      st'.all_pk_pool pk = st.all_pk_pool pk := by
  intro add
  induction add with
  | nil =>
      intro st st' _ h
      injection h with h
      subst h
      exact ⟨fun _ => rfl, rfl, rfl⟩
  | cons q rest ih =>
      intro st st' hnm h
      have hq : pk ≠ q := fun hc => hnm (hc ▸ List.mem_cons_self q rest)
      have hrest : pk ∉ rest := fun hc => hnm (List.mem_cons_of_mem q hc)
      unfold addPks at h
      revert h
      cases hv : validate_primary_key st g t q kt with
      | error e => intro h; simp at h
      | ok st2 =>
          intro h
          have h2 := ih st2 st' hrest h
          have hlit := validate_ok_eq hv
          subst hlit
          refine ⟨fun g2 => ?_, ?_, ?_⟩
          · rw [h2.1 g2]; simp [hq]
          · rw [h2.2.1]; simp [hq]
          · rw [h2.2.2]; simp [hq]

/-- Concrete cache state holding key 7 registered as GLOBAL by table "t"
of group "g" (used to examine removal behaviour). -/
def stGlobal7 : PkCache :=
  { group_pk_caches := fun g k => if g = "g" ∧ k = 7 then some "t" else none
    global_pk_cache := fun k => if k = 7 then some ("g", "t") else none
    all_pk_pool := fun k => if k = 7 then some ("g", "t") else none }

/-- Concrete cache state holding key 5 registered as GROUP by table "t"
of group "g" (global cache empty). -/
def stGroup5 : PkCache :=
  { group_pk_caches := fun g k => if g = "g" ∧ k = 5 then some "t" else none
    global_pk_cache := fun _ => none
    all_pk_pool := fun k => if k = 5 then some ("g", "t") else none }

/-- C1: `validate_primary_key` fails exactly when (a) the key is in the
group's cache, (b) the key is in the global cache, or (c) the scope is
GLOBAL and the key is in the all-pool; on success it registers the key in
the group cache and the all-pool, and in the global cache exactly when
the scope is GLOBAL.  The scope-lattice scenarios: a GROUP key 5 in group
g1 allows 5 as GROUP in g2 but blocks 5 as GLOBAL in g2, and a GLOBAL
key 7 blocks 7 as GROUP in another group. -/
theorem claim_C1 :
    (∀ (st : PkCache) (g t : String) (pk : Int) (kt : KeyType),
      (exOk (validate_primary_key st g t pk kt) = false ↔
        (st.group_pk_caches g pk).isSome ∨ (st.global_pk_cache pk).isSome ∨
          (kt = KeyType.GLOBAL ∧ (st.all_pk_pool pk).isSome)) ∧
      (∀ st', validate_primary_key st g t pk kt = .ok st' →
        (∀ g2 k, st'.group_pk_caches g2 k =
          if g2 = g ∧ k = pk then some t else st.group_pk_caches g2 k) ∧
        (∀ k, st'.all_pk_pool k =
          if k = pk then some (g, t) else st.all_pk_pool k) ∧
        (∀ k, st'.global_pk_cache k =
          if kt = KeyType.GLOBAL ∧ k = pk then some (g, t)
          else st.global_pk_cache k))) ∧
    exOk ((validate_primary_key pkEmpty "g1" "A" 5 KeyType.GROUP).bind
      (fun s => validate_primary_key s "g2" "B" 5 KeyType.GROUP)) = true ∧
    exOk ((validate_primary_key pkEmpty "g1" "A" 5 KeyType.GROUP).bind
      (fun s => validate_primary_key s "g2" "B" 5 KeyType.GLOBAL)) = false ∧
    exOk ((validate_primary_key pkEmpty "g1" "A" 7 KeyType.GLOBAL).bind
      (fun s => validate_primary_key s "g2" "B" 7 KeyType.GROUP)) = false := by
  refine ⟨fun st g t pk kt => ⟨validate_fails_iff st g t pk kt, ?_⟩, ?_, ?_, ?_⟩
  · intro st' h
    have hlit := validate_ok_eq h
    subst hlit
    exact ⟨fun _ _ => rfl, fun _ => rfl, fun _ => rfl⟩
  · rfl
  · rfl
  · rfl

/-- Witness for C1: registering key 1 in the empty cache succeeds and the
resulting state holds the registration, obtained by instantiating the
claim at this concrete input. -/
theorem claim_C1_witness :
    (validate_primary_key pkEmpty "g" "t" 1 KeyType.GROUP).toOption.map
      (fun s => (s.group_pk_caches "g" 1, s.all_pk_pool 1,
                 s.global_pk_cache 1)) =
      some (some "t", some ("g", "t"), none) := by
  cases hv : validate_primary_key pkEmpty "g" "t" 1 KeyType.GROUP with
  | error e =>
      exfalso
      have hiff := (claim_C1.1 pkEmpty "g" "t" 1 KeyType.GROUP).1
      rw [hv] at hiff
      have := hiff.mp rfl
      simp [pkEmpty] at this
  | ok s =>
      have hmaps := (claim_C1.1 pkEmpty "g" "t" 1 KeyType.GROUP).2 s hv
      have h1 := hmaps.1 "g" 1
      have h2 := hmaps.2.1 1
      have h3 := hmaps.2.2 1
      simp only [Except.toOption, Option.map_some']
      simp [h1, h2, h3, pkEmpty]

/-- C2 counterexample: with key 7 registered as GLOBAL, applying a diff
that removes 7 at scope GROUP leaves 7 in the global cache — removal is
not scope-agnostic, contradicting the claim (which demands the entry be
deleted, i.e. `some none` below be `some (none)`). -/
theorem claim_C2_counterexample :
    (apply_pk_diff stGlobal7 "g" "t" [7] [] KeyType.GROUP).toOption.map
        (fun s => s.global_pk_cache 7) = some (some ("g", "t")) ∧
    (some (some ("g", "t")) : Option (Option (String × String))) ≠
      some none := by
  constructor
  · rfl
  · simp

/-- C2 (amended): for every key in the removal list (and not re-added),
`apply_pk_diff` removes it from the group cache of the diffed group and
from the all-pool unconditionally, but from the global cache only when
the scope argument is GLOBAL; at any other scope the key's global-cache
entry is left exactly as it was. -/
theorem claim_C2_amended :
    ∀ (st : PkCache) (g t : String) (kt : KeyType)
      (removed added : List Int) (pk : Int) (st' : PkCache),
      pk ∈ removed → pk ∉ added →
      apply_pk_diff st g t removed added kt = .ok st' →
      st'.group_pk_caches g pk = none ∧ st'.all_pk_pool pk = none ∧
      st'.global_pk_cache pk =
        (if kt = KeyType.GLOBAL then none else st.global_pk_cache pk) := by
  intro st g t kt removed added pk st' hrm hnadd happ
  unfold apply_pk_diff at happ
  have hpres := addPks_ok_preserves added _ st' hnadd happ
  refine ⟨?_, ?_, ?_⟩
  · rw [hpres.1 g, remFold_group]
    simp [hrm]
  · rw [hpres.2.2, remFold_all]
    simp [hrm]
  · rw [hpres.2.1, remFold_global]
    by_cases hk : kt = KeyType.GLOBAL <;> simp [hk, hrm]

/-- Witness for C2 (amended): removing key 7 at scope GLOBAL from the
state where 7 is registered GLOBAL erases it from all three mappings. -/
theorem claim_C2_witness :
    (apply_pk_diff stGlobal7 "g" "t" [7] [] KeyType.GLOBAL).toOption.map
        (fun s => (s.group_pk_caches "g" 7, s.all_pk_pool 7,
                   s.global_pk_cache 7)) = some (none, none, none) := by
  cases hv : apply_pk_diff stGlobal7 "g" "t" [7] [] KeyType.GLOBAL with
  | error e => exact absurd hv (by simp [apply_pk_diff, addPks])
  | ok s =>
      have h := claim_C2_amended stGlobal7 "g" "t" KeyType.GLOBAL [7] [] 7 s
        (by simp) (by simp) hv
      simp only [Except.toOption, Option.map_some']
      simp [h.1, h.2.1, h.2.2]

/-- C8: `apply_pk_diff` applies the whole removal loop before any
addition is validated; consequently a key that was registered by the same
(group, table) at the given scope, appears in the removal list, and is
re-added after additions that do not mention it, passes validation — it
does not conflict with its own previous registration. -/
theorem claim_C8 :
    (∀ (st : PkCache) (g t : String) (removed added : List Int)
        (kt : KeyType),
      apply_pk_diff st g t removed added kt =
        addPks g t kt (removed.foldl (removePk g kt) st) added) ∧
    (∀ (st : PkCache) (g t : String) (kt : KeyType)
        (removed pre : List Int) (pk : Int) (st2 : PkCache),
      pk ∈ removed →
      st.group_pk_caches g pk = some t →
      st.all_pk_pool pk = some (g, t) →
      st.global_pk_cache pk =
        (if kt = KeyType.GLOBAL then some (g, t) else none) →
      addPks g t kt (removed.foldl (removePk g kt) st) pre = .ok st2 →
      pk ∉ pre →
      exOk (validate_primary_key st2 g t pk kt) = true) := by
  constructor
  · intro st g t removed added kt
    rfl
  · intro st g t kt removed pre pk st2 hrm _ _ hglob hadd hnpre
    have hpres := addPks_ok_preserves pre _ st2 hnpre hadd
    have hgrp : st2.group_pk_caches g pk = none := by
      rw [hpres.1 g, remFold_group]; simp [hrm]
    have hall : st2.all_pk_pool pk = none := by
      rw [hpres.2.2, remFold_all]; simp [hrm]
    have hglo : st2.global_pk_cache pk = none := by
      rw [hpres.2.1, remFold_global]
      by_cases hk : kt = KeyType.GLOBAL
      · simp [hk, hrm]
      · simpa [hk, hrm] using hglob
    cases hv : validate_primary_key st2 g t pk kt with
    | ok _ => rfl
    | error e =>
        exfalso
        have := (validate_fails_iff st2 g t pk kt).mp (by rw [hv]; rfl)
        rcases this with h | h | ⟨_, h⟩ <;>
          simp [hgrp, hall, hglo] at h

/-- Witness for C8: key 5, registered as GROUP by ("g","t"), removed and
immediately re-validated in the same diff, does not conflict with
itself. -/
theorem claim_C8_witness :
    exOk (validate_primary_key
      (([5] : List Int).foldl (removePk "g" KeyType.GROUP) stGroup5)
      "g" "t" 5 KeyType.GROUP) = true := by
  exact claim_C8.2 stGroup5 "g" "t" KeyType.GROUP [5] [] 5 _
    (by simp) (by simp [stGroup5]) (by simp [stGroup5]) (by simp [stGroup5])
    rfl (by simp)

/-- C10: the legacy TABLE scope behaves exactly like GROUP throughout the
cache: `validate_primary_key` and `apply_pk_diff` are equal functions at
the two scopes (only GLOBAL is special-cased anywhere). -/
theorem claim_C10 :
    (∀ (st : PkCache) (g t : String) (pk : Int),
      validate_primary_key st g t pk KeyType.TABLE =
        validate_primary_key st g t pk KeyType.GROUP) ∧
    (∀ (st : PkCache) (g t : String) (removed added : List Int),
      apply_pk_diff st g t removed added KeyType.TABLE =
        apply_pk_diff st g t removed added KeyType.GROUP) := by
  have hval : ∀ (st : PkCache) (g t : String) (pk : Int),
      validate_primary_key st g t pk KeyType.TABLE =
        validate_primary_key st g t pk KeyType.GROUP := by
    intro st g t pk
    unfold validate_primary_key
    simp
  have hrem : ∀ (g : String) (st : PkCache) (pk : Int),
      removePk g KeyType.TABLE st pk = removePk g KeyType.GROUP st pk := by
    intro g st pk
    unfold removePk
    simp
  have hadd : ∀ (g t : String) (l : List Int) (st : PkCache),
      addPks g t KeyType.TABLE st l = addPks g t KeyType.GROUP st l := by
    intro g t l
    induction l with
    | nil => intro st; rfl
    | cons q rest ih =>
        intro st
        unfold addPks
        rw [hval st g t q]
        cases validate_primary_key st g t q KeyType.GROUP with
        | error e => rfl
        | ok st2 => exact ih st2
  refine ⟨hval, fun st g t removed added => ?_⟩
  unfold apply_pk_diff
  have hre : (removePk g KeyType.TABLE) = (removePk g KeyType.GROUP) :=
    funext fun st2 => funext fun pk => hrem g st2 pk
  rw [hre, hadd]

/-! ## Python value model

`PyVal` embeds the Python values that flow through the reconciliation
engine and the codec: `None`, `int` (arbitrary precision), `float`
(embedded as the exact rational value of the IEEE-754 double; `NaN`/`inf`
do not arise in this code), `str`, `bool`, `list` and `dict`
(insertion-ordered association list). -/
inductive PyVal where
  | none
  | int (n : Int)
  | float (q : Rat)
  | str (s : String)
  | bool (b : Bool)
  | list (xs : List PyVal)
  | dict (xs : List (PyVal × PyVal))
  deriving Repr

/-! Python `==` (`pyBeq`): numbers (`int`, `float`, `bool`) compare by
numeric value across constructors, exactly as in Python; strings compare
as strings; `None` equals only `None`; lists and dicts compare pointwise.
(Python's order-insensitive dict equality is approximated pointwise; no
claim exercises nested-dict comparison.) -/
mutual
def pyBeq : PyVal → PyVal → Bool
  | .none, .none => true
  | .int a, .int b => a == b
  | .int a, .float q => ((a : Rat) == q)
  | .int a, .bool b => a == (if b then 1 else 0)
  | .float p, .int b => p == (b : Rat)
  | .float p, .float q => p == q
  | .float p, .bool b => p == (if b then (1 : Rat) else 0)
  | .bool a, .int b => (if a then (1 : Int) else 0) == b
  | .bool a, .float q => (if a then (1 : Rat) else 0) == q
  | .bool a, .bool b => a == b
  | .str s, .str t => s == t
  | .list xs, .list ys => pyBeqList xs ys
  | .dict xs, .dict ys => pyBeqDict xs ys
  | _, _ => false
def pyBeqList : List PyVal → List PyVal → Bool
  | [], [] => true
  | x :: xs, y :: ys => pyBeq x y && pyBeqList xs ys
  | _, _ => false
def pyBeqDict : List (PyVal × PyVal) → List (PyVal × PyVal) → Bool
  | [], [] => true
  | (k1, v1) :: xs, (k2, v2) :: ys =>
      pyBeq k1 k2 && pyBeq v1 v2 && pyBeqDict xs ys
  | _, _ => false
end

mutual
theorem pyBeq_refl : ∀ v : PyVal, pyBeq v v = true
  | .none => rfl
  | .int a => by simp [pyBeq]
  | .float q => by simp [pyBeq]
  | .str s => by simp [pyBeq]
  | .bool b => by cases b <;> rfl
  | .list xs => by simp only [pyBeq]; exact pyBeqList_refl xs
  | .dict xs => by simp only [pyBeq]; exact pyBeqDict_refl xs
theorem pyBeqList_refl : ∀ xs : List PyVal, pyBeqList xs xs = true
  | [] => rfl
  | x :: xs => by
      simp only [pyBeqList, Bool.and_eq_true]
      exact ⟨pyBeq_refl x, pyBeqList_refl xs⟩
theorem pyBeqDict_refl : ∀ xs : List (PyVal × PyVal), pyBeqDict xs xs = true
  | [] => rfl
  | (k, v) :: xs => by
      simp only [pyBeqDict, Bool.and_eq_true]
      exact ⟨⟨pyBeq_refl k, pyBeq_refl v⟩, pyBeqDict_refl xs⟩
end

/-- Scalar (hashable, non-container) Python values.  Container values are
unhashable in Python and can never appear in a `set` or as `Counter`
keys, so claims about key sets are stated for scalars. -/
def pyScalar : PyVal → Bool
  | .none => true
  | .int _ => true
  | .float _ => true
  | .str _ => true
  | .bool _ => true
  | .list _ => false
  | .dict _ => false

theorem pyScalar_of_pyBeq {a b : PyVal} (h : pyBeq a b = true)
    (hb : pyScalar b = true) : pyScalar a = true := by
  cases a <;> cases b <;> simp_all [pyBeq, pyScalar]

theorem pyBeq_symm_of_scalar {a b : PyVal} (hb : pyScalar b = true)
    (h : pyBeq a b = true) : pyBeq b a = true := by
  cases a <;> cases b <;> simp_all [pyBeq, pyScalar]

/-- The rational value of a Python number (`int`, `float`, `bool`);
`none` for non-numeric values.  Python `==` on numbers is equality of
these values. -/
def pyNumQ : PyVal → Option Rat
  | .int n => some (n : Rat)
  | .float q => some q
  | .bool b => some (if b then 1 else 0)
  | _ => Option.none

theorem pyNumQ_eq_of_pyBeq {a b : PyVal} (h : pyBeq a b = true) :
    pyNumQ a = pyNumQ b := by
  cases a <;> cases b <;>
    simp_all [pyBeq, pyNumQ] <;> (try split_ifs at *) <;>
    first
      | (simp_all; done)
      | exact_mod_cast h

theorem pyBeq_of_pyNumQ {a c : PyVal} {x : Rat} (ha : pyNumQ a = some x)
    (hc : pyNumQ c = some x) : pyBeq a c = true := by
  cases a <;> cases c <;>
    simp_all [pyBeq, pyNumQ] <;> (try split_ifs at *) <;>
    first
      | rfl
      | (simp_all; done)
      | exact ha.trans hc.symm
      | exact_mod_cast ha.trans hc.symm
      | (exfalso; exact (by norm_num : ¬(1 : Rat) = 0) (ha.trans hc.symm))
      | (exfalso; exact (by norm_num : ¬(0 : Rat) = 1) (ha.trans hc.symm))

theorem pyBeq_trans_of_scalar {a b c : PyVal} (hb : pyScalar b = true)
    (h1 : pyBeq a b = true) (h2 : pyBeq b c = true) : pyBeq a c = true := by
  cases b with
  | none => cases a <;> cases c <;> simp_all [pyBeq]
  | str s => cases a <;> cases c <;> simp_all [pyBeq]
  | list xs => simp [pyScalar] at hb
  | dict xs => simp [pyScalar] at hb
  | int n =>
      exact pyBeq_of_pyNumQ (x := (n : Rat))
        (by simpa [pyNumQ] using pyNumQ_eq_of_pyBeq h1)
        (by simpa [pyNumQ] using (pyNumQ_eq_of_pyBeq h2).symm)
  | float q =>
      exact pyBeq_of_pyNumQ (x := q)
        (by simpa [pyNumQ] using pyNumQ_eq_of_pyBeq h1)
        (by simpa [pyNumQ] using (pyNumQ_eq_of_pyBeq h2).symm)
  | bool bb =>
      exact pyBeq_of_pyNumQ (x := if bb then 1 else 0)
        (by simpa [pyNumQ] using pyNumQ_eq_of_pyBeq h1)
        (by simpa [pyNumQ] using (pyNumQ_eq_of_pyBeq h2).symm)

/-- Python truthiness (`if value:`). -/
def pyTruthy : PyVal → Bool
  | .none => false
  | .int n => n != 0
  | .float q => q != 0
  | .str s => s != ""
  | .bool b => b
  | .list xs => !xs.isEmpty
  | .dict xs => !xs.isEmpty

/-- `value is None`. -/
def pyIsNone : PyVal → Bool
  | .none => true
  | _ => false

/-! ## Python dicts as insertion-ordered association lists -/

/-- A Python dict: insertion-ordered association list; a stored value of
`.none` embeds Python `None`. -/
abbrev PyDict := List (PyVal × PyVal)

/-- `d.get(k)`: returns the stored value, or `None` when the key is
absent — absence and a stored `None` are indistinguishable here, exactly
as through `.get`. -/
def dictGet : PyDict → PyVal → PyVal
  | [], _ => .none
  | (k2, v) :: rest, k => if pyBeq k2 k then v else dictGet rest k

/-- `d.get(k, dflt)`: stored value (even if `None`) when present, else
the default. -/
def dictGetD : PyDict → PyVal → PyVal → PyVal
  | [], _, dflt => dflt
  | (k2, v) :: rest, k, dflt => if pyBeq k2 k then v else dictGetD rest k dflt

/-- `d[k] = v`: overwrite in place (keeping the original key object and
position, as CPython does) or append. -/
def dictSet : PyDict → PyVal → PyVal → PyDict
  | [], k, v => [(k, v)]
  | (k2, v2) :: rest, k, v =>
      if pyBeq k2 k then (k2, v) :: rest else (k2, v2) :: dictSet rest k v

theorem dictGet_set (d : PyDict) (k v : PyVal) :
    dictGet (dictSet d k v) k = v := by
  induction d with
  | nil => simp [dictSet, dictGet, pyBeq_refl]
  | cons e rest ih =>
      obtain ⟨k2, v2⟩ := e
      by_cases h : pyBeq k2 k = true
      · simp [dictSet, dictGet, h]
      · simp [dictSet, dictGet, h, ih]

/-- Setting a key that matches no existing key appends the binding. -/
theorem dictSet_fresh (d : PyDict) (k v : PyVal)
    (h : ∀ p ∈ d, pyBeq p.1 k = false) :
    dictSet d k v = d ++ [(k, v)] := by
  induction d with
  | nil => rfl
  | cons e rest ih =>
      obtain ⟨k2, v2⟩ := e
      have hk2 : pyBeq k2 k = false := h (k2, v2) (by simp)
      simp [dictSet, hk2]
      exact ih (fun p hp => h p (by simp [hp]))

/-! ## Python sets and `collections.Counter` over scalar keys -/

/-- Number of elements of `l` equal (Python `==`) to `v` — the count that
`collections.Counter` assigns to `v`'s key. -/
def pyCount (l : List PyVal) (v : PyVal) : Nat :=
  (l.filter (fun x => pyBeq x v)).length

/-- Membership by Python `==` (set / dict-key membership). -/
def pySetMem (l : List PyVal) (v : PyVal) : Bool :=
  l.any (fun y => pyBeq y v)

/-- Distinct elements in first-occurrence order: the key order of a dict
or `Counter` built by insertion (`seen` accumulates emitted keys). -/
def pyFirstsAux : List PyVal → List PyVal → List PyVal
  | _, [] => []
  | seen, x :: xs =>
      if pySetMem seen x then pyFirstsAux seen xs
      else x :: pyFirstsAux (x :: seen) xs

def pyFirsts (l : List PyVal) : List PyVal := pyFirstsAux [] l

/-- The `TypeError` CPython raises when hashing an unhashable value
(containers are the only unhashable `PyVal`s). -/
def unhashableMsg : PyVal → String
  | .dict _ => "TypeError: unhashable type: 'dict'"
  | _ => "TypeError: unhashable type: 'list'"

/-- Python `set(…)` built by iterated `add` (or a set comprehension):
adding hashes each element in order and raises `TypeError` at the first
unhashable one; on success the set is modelled in first-occurrence order
(CPython's iteration order for small int sets is unspecified; no claim
depends on the order). -/
def pySetH (l : List PyVal) : Except String (List PyVal) :=
  match l.find? (fun v => !pyScalar v) with
  | some v => .error (unhashableMsg v)
  | Option.none => .ok (pyFirsts l)

/-- Set difference `a - b`. -/
def pySetDiff (a b : List PyVal) : List PyVal :=
  a.filter (fun x => !pySetMem b x)

theorem pySetDiff_self (a : List PyVal) : pySetDiff a a = [] := by
  rw [pySetDiff, List.filter_eq_nil_iff]
  intro x hx
  simp [pySetMem]
  exact ⟨x, hx, pyBeq_refl x⟩

/-- The duplicate-scan loop of `sync_excel_to_yaml_internal` (lines
88–92) over the already-built `Counter` keys: walk them in
first-occurrence order, skip `None` and `""`, and report the first key
with count above 1 together with its count.  (The raising `Counter`
construction itself is `findDupH` below.) -/
def findDupAux (l : List PyVal) : List PyVal → Option (PyVal × Nat)
  | [] => Option.none
  | v :: rest =>
      if pyIsNone v || pyBeq v (.str "") then findDupAux l rest
      else if 1 < pyCount l v then some (v, pyCount l v)
      else findDupAux l rest

def findDup (l : List PyVal) : Option (PyVal × Nat) :=
  findDupAux l (pyFirsts l)

/-- `collections.Counter(new_pk_list)` (line 86) followed by the
duplicate loop: building the counter hashes every batch value and raises
`TypeError` at the first unhashable one; otherwise the scan runs. -/
def findDupH (l : List PyVal) : Except String (Option (PyVal × Nat)) :=
  match l.find? (fun v => !pyScalar v) with
  | some v => .error (unhashableMsg v)
  | Option.none => .ok (findDup l)

theorem findDupAux_spec (l : List PyVal) :
    ∀ (fs : List PyVal) (v : PyVal) (c : Nat),
      findDupAux l fs = some (v, c) →
      1 < c ∧ pyCount l v = c ∧ pyIsNone v = false ∧
        pyBeq v (.str "") = false := by
  intro fs
  induction fs with
  | nil => intro v c h; simp [findDupAux] at h
  | cons x rest ih =>
      intro v c h
      unfold findDupAux at h
      by_cases h1 : (pyIsNone x || pyBeq x (.str "")) = true
      · rw [if_pos h1] at h
        exact ih v c h
      · rw [if_neg h1] at h
        by_cases h2 : 1 < pyCount l x
        · rw [if_pos h2] at h
          injection h with h
          have hv : x = v := congrArg Prod.fst h
          have hc : pyCount l x = c := congrArg Prod.snd h
          subst hv
          subst hc
          simp only [Bool.or_eq_true, not_or, Bool.not_eq_true] at h1
          exact ⟨h2, rfl, h1.1, h1.2⟩
        · rw [if_neg h2] at h
          exact ih v c h

theorem pyCount_congr {v v' : PyVal} (l : List PyVal)
    (hs : pyScalar v = true) (h : pyBeq v' v = true) :
    pyCount l v' = pyCount l v := by
  have hs' : pyScalar v' = true := pyScalar_of_pyBeq h hs
  unfold pyCount
  congr 1
  apply List.filter_congr
  intro x _
  by_cases hx : pyBeq x v' = true
  · rw [hx, Eq.symm (pyBeq_trans_of_scalar hs' hx h)]
  · simp only [Bool.not_eq_true] at hx
    rw [hx]
    by_cases hx2 : pyBeq x v = true
    · exact absurd (pyBeq_trans_of_scalar hs hx2
        (pyBeq_symm_of_scalar hs h)) (by simp [hx])
    · simp only [Bool.not_eq_true] at hx2
      rw [hx2]

/-- Every element of `l` has a Python-equal representative among
`pyFirsts l` (scalar case). -/
theorem pyFirsts_rep {v : PyVal} (hs : pyScalar v = true) :
    ∀ (l seen : List PyVal), (∃ x ∈ l, pyBeq x v = true) →
      (∃ y ∈ seen, pyBeq y v = true) ∨
        ∃ y ∈ pyFirstsAux seen l, pyBeq y v = true := by
  intro l
  induction l with
  | nil => intro seen h; rcases h with ⟨x, hx, _⟩; simp at hx
  | cons x rest ih =>
      intro seen h
      unfold pyFirstsAux
      by_cases hseen : pySetMem seen x = true
      · rcases h with ⟨z, hz, hzv⟩
        rcases List.mem_cons.mp hz with hzx | hzr
        · subst hzx
          left
          rcases List.any_eq_true.mp hseen with ⟨y, hy, hyx⟩
          exact ⟨y, hy, pyBeq_trans_of_scalar
            (pyScalar_of_pyBeq hzv hs) hyx hzv⟩
        · rw [if_pos hseen]
          exact ih seen ⟨z, hzr, hzv⟩
      · rw [if_neg (by simp [hseen])]
        rcases h with ⟨z, hz, hzv⟩
        rcases List.mem_cons.mp hz with hzx | hzr
        · subst hzx
          right
          exact ⟨z, by simp, hzv⟩
        · rcases ih (x :: seen) ⟨z, hzr, hzv⟩ with ⟨y, hy, hyv⟩ | hr
          · rcases List.mem_cons.mp hy with hyx | hys
            · subst hyx
              right
              exact ⟨y, by simp, hyv⟩
            · exact Or.inl ⟨y, hys, hyv⟩
          · right
            rcases hr with ⟨y, hy, hyv⟩
            exact ⟨y, by simp [hy], hyv⟩

/-- If some scanned key is admissible (not `None`/`""`) and has count
above 1, the duplicate scan reports something. -/
theorem findDupAux_complete (l : List PyVal) :
    ∀ (fs : List PyVal) (v : PyVal), v ∈ fs →
      pyIsNone v = false → pyBeq v (.str "") = false →
      1 < pyCount l v → findDupAux l fs ≠ Option.none := by
  intro fs
  induction fs with
  | nil => intro v hv; simp at hv
  | cons x rest ih =>
      intro v hv hn he hc
      unfold findDupAux
      rcases List.mem_cons.mp hv with hvx | hvr
      · subst hvx
        rw [if_neg (by simp [hn, he]), if_pos hc]
        simp
      · by_cases h1 : (pyIsNone x || pyBeq x (.str "")) = true
        · rw [if_pos h1]
          exact ih v hvr hn he hc
        · rw [if_neg h1]
          by_cases h2 : 1 < pyCount l x
          · rw [if_pos h2]; simp
          · rw [if_neg h2]
            exact ih v hvr hn he hc

/-- Completeness of the duplicate scan: a scalar value, distinct from
`None` and `""`, occurring more than once, forces a report. -/
theorem findDup_complete {l : List PyVal} {v : PyVal}
    (hs : pyScalar v = true) (hmem : ∃ x ∈ l, pyBeq x v = true)
    (hn : pyIsNone v = false) (he : pyBeq v (.str "") = false)
    (hc : 1 < pyCount l v) : findDup l ≠ Option.none := by
  rcases pyFirsts_rep hs l [] hmem with ⟨y, hy, _⟩ | ⟨y, hy, hyv⟩
  · simp at hy
  · have hys : pyScalar y = true := pyScalar_of_pyBeq hyv hs
    have hyn : pyIsNone y = false := by
      cases y <;> cases v <;> simp_all [pyBeq, pyIsNone]
    have hye : pyBeq y (.str "") = false := by
      by_cases hcontra : pyBeq y (.str "") = true
      · exact absurd (pyBeq_trans_of_scalar hys
          (pyBeq_symm_of_scalar hs hyv) hcontra) (by simp [he])
      · simpa using hcontra
    have hyc : 1 < pyCount l y := by
      rw [pyCount_congr l hs hyv]
      exact hc
    exact findDupAux_complete l (pyFirsts l) y hy hyn hye hyc

/-! ## Table model (`src/utils/models.py`) and Python library fringe

Library routines whose behaviour the repository does not itself define
are collected in `PyOracle` and passed explicitly: `json.loads`
(`jsonParse`), `float(<string>)` (`floatParse`) and the shortest-
round-trip decimal rendering of Python floats (`floatStr`). -/
structure PyOracle where
  jsonParse : String → Except String PyVal
  floatParse : String → Except String Rat
  floatStr : Rat → String

/-- Lower-casing (`str.lower()`), adequate for the ASCII tokens
`"true"/"1"/"yes"` the code compares against. -/
def strLower (s : String) : String := String.mk (s.data.map Char.toLower)

/-- `p` is a prefix of `s` (`str.startswith`). -/
def strStarts (s p : String) : Bool := p.data.isPrefixOf s.data

/-! Python `repr()` (`pyRepr`), as used by `str()` on container elements.
String escaping inside `repr` of a string is not modelled (no claim
renders a string needing escapes). -/
mutual
def pyRepr (o : PyOracle) : PyVal → String
  | .none => "None"
  | .int n => toString n
  | .float q => o.floatStr q
  | .str s => "'" ++ s ++ "'"
  | .bool b => if b then "True" else "False"
  | .list xs => "[" ++ pyReprList o xs ++ "]"
  | .dict xs => "\x7b" ++ pyReprDict o xs ++ "\x7d"
def pyReprList (o : PyOracle) : List PyVal → String
  | [] => ""
  | [x] => pyRepr o x
  | x :: xs => pyRepr o x ++ ", " ++ pyReprList o xs
def pyReprDict (o : PyOracle) : List (PyVal × PyVal) → String
  | [] => ""
  | [(k, v)] => pyRepr o k ++ ": " ++ pyRepr o v
  | (k, v) :: xs => pyRepr o k ++ ": " ++ pyRepr o v ++ ", " ++ pyReprDict o xs
end

/-- Python `str()`. -/
def pyStr (o : PyOracle) : PyVal → String
  | .str s => s
  | .list xs => "[" ++ pyReprList o xs ++ "]"
  | .dict xs => "\x7b" ++ pyReprDict o xs ++ "\x7d"
  | v => pyRepr o v

/-- Decimal digit run parser for `int(<string>)`. -/
def parseNatDigits : List Char → Nat → Option Nat
  | [], acc => some acc
  | c :: cs, acc =>
      if 48 ≤ c.toNat ∧ c.toNat ≤ 57 then
        parseNatDigits cs (acc * 10 + (c.toNat - 48))
      else Option.none

/-- `int(<string>)`: optional sign and decimal digits.  (Python also
tolerates surrounding whitespace and `_` digit separators; not
modelled — no claim feeds such strings.) -/
def pyIntOfString (s : String) : Option Int :=
  match s.data with
  | [] => Option.none
  | '-' :: rest =>
      if rest.isEmpty then Option.none
      else (parseNatDigits rest 0).map (fun n => -(n : Int))
  | '+' :: rest =>
      if rest.isEmpty then Option.none
      else (parseNatDigits rest 0).map (fun n => (n : Int))
  | ds => (parseNatDigits ds 0).map (fun n => (n : Int))

/-- Python `int(value)`: identity on ints, truncation toward zero on
floats, 0/1 on bools, digit parse on strings, `TypeError` otherwise. -/
def pyToInt : PyVal → Except String Int
  | .int n => .ok n
  | .float q => .ok (Int.tdiv q.num q.den)
  | .bool b => .ok (if b then 1 else 0)
  | .str s =>
      match pyIntOfString s with
      | some n => .ok n
      | Option.none => .error ("invalid literal for int() with base 10: " ++ s)
  | _ => .error "int() argument must be a string or a number"

/-- Python `float(value)` (result kept as an exact rational; the rounding
of huge ints to binary64 is not modelled — no claim feeds such ints). -/
def pyToFloat (o : PyOracle) : PyVal → Except String Rat
  | .int n => .ok (n : Rat)
  | .float q => .ok q
  | .bool b => .ok (if b then 1 else 0)
  | .str s => o.floatParse s
  | _ => .error "float() argument must be a string or a number"

/-- `value + 1` for the primary-key auto-fill (Python `+`). -/
def pyAdd1 : PyVal → Except String PyVal
  | .int n => .ok (.int (n + 1))
  | .float q => .ok (.float (q + 1))
  | .bool b => .ok (.int ((if b then 1 else 0) + 1))
  | _ => .error "unsupported operand type(s) for +"

/-- Column definition from `src/utils/models.py` (`ColumnDef`). -/
structure ColumnDef where
  name : String
  type : String
  description : String := ""
  default : PyVal := .none

/-- `ColumnDef.validate_value` from `src/utils/models.py`: empty input to
`None`, then the per-type coercion chain, with conversion failures
wrapped in the column's `ValueError` message. -/
def validate_value (o : PyOracle) (col : ColumnDef) (value : PyVal) :
    Except String PyVal :=
  if pyIsNone value || pyBeq value (.str "") then .ok .none
  else
    let wrap : Except String PyVal → Except String PyVal := fun r =>
      match r with
      | .ok v => .ok v
      | .error e =>
          .error ("列 " ++ col.name ++ " 的值 " ++ pyStr o value
            ++ " 无法转换为 " ++ col.type ++ ": " ++ e)
    if col.type = "int" then wrap ((pyToInt value).map .int)
    else if col.type = "float" then wrap ((pyToFloat o value).map .float)
    else if col.type = "string" then .ok (.str (pyStr o value))
    else if col.type = "bool" then
      match value with
      | .bool b => .ok (.bool b)
      | _ => .ok (.bool
          ((["true", "1", "yes"] : List String).contains
            (strLower (pyStr o value))))
    else if strStarts col.type "List" then
      match value with
      | .list xs => .ok (.list xs)
      | .str s => wrap (o.jsonParse s)
      | v => .ok (.list [v])
    else if strStarts col.type "Dictionary" then
      match value with
      | .dict xs => .ok (.dict xs)
      | .str s => wrap (o.jsonParse s)
      | _ => .ok (.dict [])
    else .ok value

/-- Configuration table from `src/utils/models.py` (`ConfigTable`). -/
structure ConfigTable where
  table_name : String
  group_name : String
  key_type : KeyType := .TABLE
  columns : List ColumnDef := []
  data : List PyDict := []

/-! ## The worksheet surface and the reconciliation engine
(`src/utils/sync.py`, `sync_excel_to_yaml_internal`) -/

/-- An openpyxl worksheet as the engine reads it: 1-based `cell`
addressing, `.none` for an empty cell. -/
structure Worksheet where
  maxRow : Nat
  maxCol : Nat
  cell : Nat → Nat → PyVal

/-- `ws.cell(row=r, column=c, value=v)`.  (The source wraps this write in
`try/except ValueError: pass`; the model's write always succeeds.) -/
def wsSetCell (ws : Worksheet) (r c : Nat) (v : PyVal) : Worksheet :=
  { ws with cell := fun r2 c2 => if r2 = r ∧ c2 = c then v else ws.cell r2 c2 }

/-- Header collection (lines 44–49): the truthy values of row 1, columns
1..max_column, in order. -/
def readColumnNames (ws : Worksheet) : List PyVal :=
  ((List.range' 1 ws.maxCol).map (fun c => ws.cell 1 c)).filter pyTruthy

/-- The inner per-column loop of one data row (lines 55–62): read the
cell at the header's (re-enumerated) position, track emptiness of the
raw values, and store the value — coerced by the POSITIONALLY matched
schema column `table.columns[col_idx - 1]` — under the header name.
A header position beyond the schema raises `IndexError`. -/
def buildRowAux (o : PyOracle) (cols : List ColumnDef) (ws : Worksheet)
    (rowIdx : Nat) :
    List PyVal → Nat → PyDict → Bool → Except String (PyDict × Bool)
  | [], _, rd, emp => .ok (rd, emp)
  | name :: rest, colIdx, rd, emp =>
      let value := ws.cell rowIdx colIdx
      let emp2 := if pyIsNone value || pyBeq value (.str "") then emp
        else false
      match cols.get? (colIdx - 1) with
      | Option.none => .error "IndexError: list index out of range"
      | some col =>
          match validate_value o col value with
          | .error e => .error e
          | .ok v =>
              buildRowAux o cols ws rowIdx rest (colIdx + 1)
                (dictSet rd name v) emp2

def buildRow (o : PyOracle) (cols : List ColumnDef) (names : List PyVal)
    (ws : Worksheet) (rowIdx : Nat) : Except String (PyDict × Bool) :=
  buildRowAux o cols ws rowIdx names 1 [] true

/-- One iteration of the data-row loop (lines 52–84): build the row, skip
it when entirely empty, auto-fill an empty primary key from the previous
accepted row (or 1), write the filled key back into the worksheet's
first column, and append the row and its key. -/
def syncRowStep (o : PyOracle) (cols : List ColumnDef) (names : List PyVal)
    (pkName : PyVal) (acc : List PyDict × List PyVal × Worksheet)
    (rowIdx : Nat) : Except String (List PyDict × List PyVal × Worksheet) :=
  match buildRow o cols names acc.2.2 rowIdx with
  | .error e => .error e
  | .ok (rd, emp) =>
      if emp then .ok acc
      else
        match dictGet rd pkName with
        | .none =>
            match acc.1.getLast? with
            | Option.none =>
                .ok (acc.1 ++ [dictSet rd pkName (.int 1)],
                  acc.2.1 ++ [dictGet (dictSet rd pkName (.int 1)) pkName],
                  wsSetCell acc.2.2 rowIdx 1 (.int 1))
            | some last =>
                match pyAdd1 (dictGetD last pkName (.int 0)) with
                | .error e => .error e
                | .ok filled =>
                    .ok (acc.1 ++ [dictSet rd pkName filled],
                      acc.2.1 ++ [dictGet (dictSet rd pkName filled) pkName],
                      wsSetCell acc.2.2 rowIdx 1 filled)
        | pkv => .ok (acc.1 ++ [rd], acc.2.1 ++ [pkv], acc.2.2)

/-- The whole data-row loop: rows 4 through `max_row`. -/
def processRows (o : PyOracle) (cols : List ColumnDef) (names : List PyVal)
    (pkName : PyVal) (ws : Worksheet) :
    Except String (List PyDict × List PyVal × Worksheet) :=
  (List.range' 4 (ws.maxRow - 3)).foldlM (syncRowStep o cols names pkName)
    ([], [], ws)

/-- The in-batch duplicate error message (line 92). -/
def dupMsg (o : PyOracle) (v : PyVal) (c : Nat) : String :=
  "主键冲突：主键值 " ++ pyStr o v ++ " 在Excel中出现了 " ++ toString c ++ " 次"

/-- Removal of one Python-valued key from the `Int`-keyed caches: the
source's `pk_value in <dict>` membership matches an `int` key exactly
when the value is a number of that integral value. -/
def pyIntKeyQ : PyVal → Option Int
  | .int n => some n
  | .float q => if q.den = 1 then some q.num else Option.none
  | .bool b => some (if b then 1 else 0)
  | _ => Option.none

/-- One removal with a Python-valued key: the membership test hashes the
key, so an unhashable value raises `TypeError`; a hashable non-numeric
key matches nothing and removes nothing. -/
def removePkPy (g : String) (kt : KeyType) (st : PkCache) (v : PyVal) :
    Except String PkCache :=
  if pyScalar v then
    .ok (match pyIntKeyQ v with
      | some n => removePk g kt st n
      | Option.none => st)
  else .error (unhashableMsg v)

/-- The removal loop over Python-valued keys; a raise carries the cache
state at raise time (earlier removals stay applied). -/
def removeFoldPy (g : String) (kt : KeyType) :
    PkCache → List PyVal → Except (String × PkCache) PkCache
  | st, [] => .ok st
  | st, v :: rest =>
      match removePkPy g kt st v with
      | .error e => .error (e, st)
      | .ok st2 => removeFoldPy g kt st2 rest

/-- The addition loop of `apply_pk_diff` as called from the engine with
Python values: `int(pk_value)` then `validate_primary_key`; a raise
carries the cache state at raise time. -/
def addPksPy (g t : String) (kt : KeyType) :
    PkCache → List PyVal → Except (String × PkCache) PkCache
  | st, [] => .ok st
  | st, v :: rest =>
      match pyToInt v with
      | .error e => .error (e, st)
      | .ok n =>
          match validate_primary_key st g t n kt with
          | .error e => .error (e, st)
          | .ok st2 => addPksPy g t kt st2 rest

def apply_pk_diff_py (st : PkCache) (g t : String)
    (removed added : List PyVal) (kt : KeyType) :
    Except (String × PkCache) PkCache :=
  match removeFoldPy g kt st removed with
  | .error e => .error e
  | .ok st1 => addPksPy g t kt st1 added

/-- `sync_excel_to_yaml_internal` from `src/utils/sync.py`: load is
modelled by receiving the table, save by returning the updated table.
The error branch carries the module-level cache state as of the raise
(the caches are only ever touched by `apply_pk_diff`). -/
def sync_excel_to_yaml_internal (o : PyOracle) (table : ConfigTable)
    (ws : Worksheet) (st : PkCache) :
    Except (String × PkCache) (ConfigTable × Worksheet × PkCache) :=
  match table.columns with
  | [] => .error ("配置表 " ++ table.table_name ++ " 没有列定义", st)
  | pkCol :: _ =>
      let pkName : PyVal := .str pkCol.name
      let names := readColumnNames ws
      match processRows o table.columns names pkName ws with
      | .error e => .error (e, st)
      | .ok (new_datas, new_pk_list, ws2) =>
          match findDupH new_pk_list with
          | .error e => .error (e, st)
          | .ok (some (v, c)) => .error (dupMsg o v c, st)
          | .ok Option.none =>
              let keep : PyVal → Bool :=
                fun v => !(pyIsNone v || pyBeq v (.str ""))
              match pySetH
                  ((table.data.map (fun r => dictGet r pkName)).filter
                    keep) with
              | .error e => .error (e, st)
              | .ok old_pk_set =>
                  match pySetH (new_pk_list.filter keep) with
                  | .error e => .error (e, st)
                  | .ok new_pk_set =>
                      let deleted_pks := pySetDiff old_pk_set new_pk_set
                      let added_pks := pySetDiff new_pk_set old_pk_set
                      match apply_pk_diff_py st table.group_name
                          table.table_name deleted_pks added_pks
                          table.key_type with
                      | .error (e, st2) => .error (e, st2)
                      | .ok st2 =>
                          .ok ({ table with data := new_datas }, ws2, st2)

/-- The key list accumulated by the row loop is exactly the primary-key
field of the accumulated rows: each accepted row appends
`row_data[pk_column_name]`. -/
theorem syncRowStep_pks {o : PyOracle} {cols : List ColumnDef}
    {names : List PyVal} {pkName : PyVal} :
    ∀ (datas : List PyDict) (pks : List PyVal) (ws : Worksheet)
      (rowIdx : Nat) (datas' : List PyDict) (pks' : List PyVal)
      (ws' : Worksheet),
      pks = datas.map (fun r => dictGet r pkName) →
      syncRowStep o cols names pkName (datas, pks, ws) rowIdx =
        .ok (datas', pks', ws') →
      pks' = datas'.map (fun r => dictGet r pkName) := by
  intro datas pks ws rowIdx datas' pks' ws' hinv h
  unfold syncRowStep at h
  split at h
  · simp at h
  · split at h
    · injection h with h
      simp only [Prod.mk.injEq] at h
      obtain ⟨h1, h2, h3⟩ := h
      subst h1
      rw [← h2]
      exact hinv
    · split at h
      · split at h
        · injection h with h
          simp only [Prod.mk.injEq] at h
          obtain ⟨h1, h2, h3⟩ := h
          subst h1
          rw [← h2, hinv, List.map_append]
          exact rfl
        · split at h
          · simp at h
          · injection h with h
            simp only [Prod.mk.injEq] at h
            obtain ⟨h1, h2, h3⟩ := h
            subst h1
            rw [← h2, hinv, List.map_append]
            exact rfl
      · injection h with h
        simp only [Prod.mk.injEq] at h
        obtain ⟨h1, h2, h3⟩ := h
        subst h1
        rw [← h2, hinv, List.map_append]
        exact rfl

theorem foldl_syncRowStep_pks {o : PyOracle} {cols : List ColumnDef}
    {names : List PyVal} {pkName : PyVal} :
    ∀ (l : List Nat) (acc : List PyDict × List PyVal × Worksheet)
      (datas' : List PyDict) (pks' : List PyVal) (ws' : Worksheet),
      acc.2.1 = acc.1.map (fun r => dictGet r pkName) →
      List.foldlM (syncRowStep o cols names pkName) acc l =
        .ok (datas', pks', ws') →
      pks' = datas'.map (fun r => dictGet r pkName) := by
  intro l
  induction l with
  | nil =>
      intro acc datas' pks' ws' hinv h
      simp only [List.foldlM_nil] at h
      obtain ⟨d0, p0, w0⟩ := acc
      injection h with h
      have h2 : p0 = pks' := congrArg (fun x => x.2.1) h
      have h1 : d0 = datas' := congrArg (fun x => x.1) h
      subst h1
      subst h2
      exact hinv
  | cons x rest ih =>
      intro acc datas' pks' ws' hinv h
      simp only [List.foldlM_cons] at h
      obtain ⟨d0, p0, w0⟩ := acc
      cases hstep : syncRowStep o cols names pkName (d0, p0, w0) x with
      | error e =>
          rw [hstep] at h
          exact Except.noConfusion h
      | ok acc2 =>
          rw [hstep] at h
          obtain ⟨d1, p1, w1⟩ := acc2
          have hinv1 : p1 = d1.map (fun r => dictGet r pkName) :=
            syncRowStep_pks d0 p0 w0 x d1 p1 w1 hinv hstep
          exact ih (d1, p1, w1) datas' pks' ws' hinv1 h

/-- Whole-loop corollary: the accumulated primary-key list is the
primary-key field of the accepted rows. -/
theorem processRows_pks {o : PyOracle} {cols : List ColumnDef}
    {names : List PyVal} {pkName : PyVal} {ws : Worksheet}
    {datas : List PyDict} {pks : List PyVal} {ws2 : Worksheet}
    (h : processRows o cols names pkName ws = .ok (datas, pks, ws2)) :
    pks = datas.map (fun r => dictGet r pkName) :=
  foldl_syncRowStep_pks (List.range' 4 (ws.maxRow - 3)) ([], [], ws)
    datas pks ws2 rfl h

/-- Reference form of the row-building loop: the i-th collected header
name is paired with the positionally matched schema column's coercion of
the worksheet cell in that position. -/
def posRowVals (o : PyOracle) (cols : List ColumnDef) (ws : Worksheet)
    (rowIdx : Nat) : List PyVal → Nat → Except String PyDict
  | [], _ => .ok []
  | name :: rest, colIdx =>
      match cols.get? (colIdx - 1) with
      | Option.none => .error "IndexError: list index out of range"
      | some col =>
          match validate_value o col (ws.cell rowIdx colIdx) with
          | .error e => .error e
          | .ok v =>
              match posRowVals o cols ws rowIdx rest (colIdx + 1) with
              | .error e => .error e
              | .ok tl => .ok ((name, v) :: tl)

theorem posRowVals_keys {o : PyOracle} {cols : List ColumnDef}
    {ws : Worksheet} {rowIdx : Nat} :
    ∀ (names : List PyVal) (colIdx : Nat) (l : PyDict),
      posRowVals o cols ws rowIdx names colIdx = .ok l →
      l.map Prod.fst = names := by
  intro names
  induction names with
  | nil =>
      intro colIdx l h
      injection h with h
      rw [← h]
      rfl
  | cons name rest ih =>
      intro colIdx l h
      unfold posRowVals at h
      cases hcol : cols.get? (colIdx - 1) with
      | none =>
          simp only [hcol] at h
          exact Except.noConfusion h
      | some col =>
          simp only [hcol] at h
          cases hv : validate_value o col (ws.cell rowIdx colIdx) with
          | error e =>
              simp only [hv] at h
              exact Except.noConfusion h
          | ok v =>
              simp only [hv] at h
              cases hrec : posRowVals o cols ws rowIdx rest (colIdx + 1) with
              | error e =>
                  simp only [hrec] at h
                  exact Except.noConfusion h
              | ok tl =>
                  simp only [hrec] at h
                  injection h with h
                  rw [← h, List.map_cons, ih (colIdx + 1) tl hrec]

/-- For pairwise-distinct header names, the row loop appends the
positional bindings to its accumulator (dict insertion never overwrites). -/
theorem buildRowAux_pos {o : PyOracle} {cols : List ColumnDef}
    {ws : Worksheet} {rowIdx : Nat} :
    ∀ (names : List PyVal) (colIdx : Nat) (rd0 : PyDict) (emp0 : Bool)
      (rd : PyDict) (emp : Bool),
      List.Pairwise (fun a b => pyBeq a b = false) names →
      (∀ n ∈ names, ∀ p ∈ rd0, pyBeq p.1 n = false) →
      buildRowAux o cols ws rowIdx names colIdx rd0 emp0 = .ok (rd, emp) →
      ∃ tl, posRowVals o cols ws rowIdx names colIdx = .ok tl ∧
        rd = rd0 ++ tl := by
  intro names
  induction names with
  | nil =>
      intro colIdx rd0 emp0 rd emp _ _ h
      injection h with h
      refine ⟨[], rfl, ?_⟩
      have h1 : rd0 = rd := congrArg (fun x => x.1) h
      rw [← h1, List.append_nil]
  | cons name rest ih =>
      intro colIdx rd0 emp0 rd emp hpw hfresh h
      unfold buildRowAux at h
      cases hcol : cols.get? (colIdx - 1) with
      | none =>
          simp only [hcol] at h
          exact Except.noConfusion h
      | some col =>
          simp only [hcol] at h
          cases hv : validate_value o col (ws.cell rowIdx colIdx) with
          | error e =>
              simp only [hv] at h
              exact Except.noConfusion h
          | ok v =>
              simp only [hv] at h
              have hset : dictSet rd0 name v = rd0 ++ [(name, v)] :=
                dictSet_fresh rd0 name v
                  (fun p hp => hfresh name (by simp) p hp)
              rw [hset] at h
              have hfresh2 : ∀ n ∈ rest, ∀ p ∈ rd0 ++ [(name, v)],
                  pyBeq p.1 n = false := by
                intro n hn p hp
                rcases List.mem_append.mp hp with hp0 | hp1
                · exact hfresh n (by simp [hn]) p hp0
                · have hpv : p = (name, v) := by simpa using hp1
                  subst hpv
                  exact (List.pairwise_cons.mp hpw).1 n hn
              obtain ⟨tl, htl, hrd⟩ := ih (colIdx + 1) (rd0 ++ [(name, v)])
                _ rd emp (List.pairwise_cons.mp hpw).2 hfresh2 h
              refine ⟨(name, v) :: tl, ?_, ?_⟩
              · unfold posRowVals
                simp only [hcol, hv, htl]
              · rw [hrd, List.append_assoc]
                rfl

/-- A concrete oracle for closed evaluations; none of its members is
reached by the concrete inputs used below. -/
def pyOracle0 : PyOracle :=
  { jsonParse := fun _ => .error "json.loads"
    floatParse := fun _ => .error "float()"
    floatStr := fun _ => "0.0" }

/-- Table of the duplicate-key scenario (cf. `test_sync_duplicate_pk_raises`). -/
def tblDup : ConfigTable :=
  { table_name := "t2", group_name := "g", key_type := .GLOBAL
    columns := [{ name := "id", type := "int" }, { name := "val", type := "int" }]
    data := [[(.str "id", .int 1), (.str "val", .int 10)]] }

/-- Edited surface carrying primary key 1 twice. -/
def wsDup : Worksheet :=
  { maxRow := 5, maxCol := 2
    cell := fun r c =>
      if r = 1 ∧ c = 1 then .str "id" else if r = 1 ∧ c = 2 then .str "val"
      else if r = 4 ∧ c = 1 then .int 1 else if r = 4 ∧ c = 2 then .int 10
      else if r = 5 ∧ c = 1 then .int 1 else if r = 5 ∧ c = 2 then .int 11
      else .none }

/-- Surface whose primary-key column is `List<int>`-typed, so both
accepted rows coerce their key cell `1` to the list `[1]` — a duplicated
but unhashable key value. -/
def tblHash : ConfigTable :=
  { table_name := "t", group_name := "g", key_type := .GROUP
    columns := [{ name := "id", type := "List<int>" }]
    data := [] }

def wsHash : Worksheet :=
  { maxRow := 5, maxCol := 1
    cell := fun r c =>
      if r = 1 ∧ c = 1 then .str "id"
      else if r = 4 ∧ c = 1 then .int 1
      else if r = 5 ∧ c = 1 then .int 1
      else .none }

/-- C3 counterexample: the batch keys are `[1]` twice — a value that
occurs more than once (Python `[1] == [1]`) — yet reconciliation fails
with `TypeError` at the `Counter` construction, not with the
duplicate-key error the claim demands. -/
theorem claim_C3_counterexample :
    1 < pyCount [PyVal.list [.int 1], PyVal.list [.int 1]]
      (PyVal.list [.int 1]) ∧
    sync_excel_to_yaml_internal pyOracle0 tblHash wsHash pkEmpty =
      .error ("TypeError: unhashable type: 'list'", pkEmpty) ∧
    "TypeError: unhashable type: 'list'" ≠
      dupMsg pyOracle0 (PyVal.list [.int 1]) 2 := by
  refine ⟨by decide, rfl, by decide⟩

/-- C3 (amended): when every batch key value is hashable and some
(non-null, non-empty) key value occurs more than once in the accepted
batch, reconciliation fails with the duplicate-key error naming a
duplicated value and its occurrence count, the returned cache state is
exactly the input state (the caches were never touched), and no table is
produced — nothing is written.  A batch containing an unhashable key
value instead fails with `TypeError` when the `Counter` is built, before
the duplicate check, likewise writing nothing. -/
theorem claim_C3_amended :
    ∀ (o : PyOracle) (table : ConfigTable) (ws : Worksheet) (st : PkCache)
      (pkCol : ColumnDef) (rest : List ColumnDef) (datas : List PyDict)
      (pks : List PyVal) (ws2 : Worksheet) (v : PyVal),
      table.columns = pkCol :: rest →
      processRows o table.columns (readColumnNames ws) (.str pkCol.name) ws
        = .ok (datas, pks, ws2) →
      pks.all pyScalar = true →
      pyScalar v = true → pyIsNone v = false → pyBeq v (.str "") = false →
      1 < pyCount pks v →
      ∃ v2 c2, 1 < c2 ∧ pyCount pks v2 = c2 ∧ pyIsNone v2 = false ∧
        pyBeq v2 (.str "") = false ∧
        sync_excel_to_yaml_internal o table ws st =
          .error (dupMsg o v2 c2, st) := by
  intro o table ws st pkCol rest datas pks ws2 v hcols hproc hall hs hn he
    hc
  have hmem : ∃ x ∈ pks, pyBeq x v = true := by
    rcases hcl : pks.filter (fun x => pyBeq x v) with _ | ⟨x, xs⟩
    · exfalso
      unfold pyCount at hc
      rw [hcl] at hc
      simp at hc
    · have hx : x ∈ pks.filter (fun x => pyBeq x v) := by
        rw [hcl]; exact List.mem_cons_self x xs
      exact ⟨x, (List.mem_filter.mp hx).1, (List.mem_filter.mp hx).2⟩
  have hne := findDup_complete hs hmem hn he hc
  cases hfd : findDup pks with
  | none => exact absurd hfd hne
  | some pr =>
      obtain ⟨v2, c2⟩ := pr
      obtain ⟨h1, h2, h3, h4⟩ :=
        findDupAux_spec pks (pyFirsts pks) v2 c2 hfd
      refine ⟨v2, c2, h1, h2, h3, h4, ?_⟩
      have hfind : pks.find? (fun x => !pyScalar x) = Option.none := by
        rw [List.find?_eq_none]
        intro x hx
        simp [List.all_eq_true.mp hall x hx]
      have hfdH : findDupH pks = .ok (some (v2, c2)) := by
        unfold findDupH
        rw [hfind, hfd]
      unfold sync_excel_to_yaml_internal
      rw [hcols] at hproc ⊢
      simp only [hproc, hfdH]

/-- Witness for C3 (amended): the all-int surface carrying primary key 1
twice fails with the duplicate error and the cache handed back is the
untouched input. -/
theorem claim_C3_witness :
    ∃ v2 c2, 1 < c2 ∧ pyCount [PyVal.int 1, PyVal.int 1] v2 = c2 ∧
      pyIsNone v2 = false ∧ pyBeq v2 (.str "") = false ∧
      sync_excel_to_yaml_internal pyOracle0 tblDup wsDup pkEmpty =
        .error (dupMsg pyOracle0 v2 c2, pkEmpty) :=
  claim_C3_amended pyOracle0 tblDup wsDup pkEmpty
    { name := "id", type := "int" } [{ name := "val", type := "int" }]
    [[(.str "id", .int 1), (.str "val", .int 10)],
     [(.str "id", .int 1), (.str "val", .int 11)]]
    [.int 1, .int 1] wsDup (.int 1) rfl rfl rfl rfl rfl rfl (by decide)

/-- Table and surface of the auto-fill scenario: two rows with an empty
primary-key cell against an empty table. -/
def tblAuto : ConfigTable :=
  { table_name := "t", group_name := "g", key_type := .GROUP
    columns := [{ name := "pk", type := "int" }, { name := "v", type := "int" }]
    data := [] }

def wsAuto : Worksheet :=
  { maxRow := 5, maxCol := 2
    cell := fun r c =>
      if r = 1 ∧ c = 1 then .str "pk" else if r = 1 ∧ c = 2 then .str "v"
      else if r = 4 ∧ c = 2 then .int 1 else if r = 5 ∧ c = 2 then .int 2
      else .none }

/-- C4: an accepted row whose coerced primary key is `None` is stored
with the key auto-filled to the previous accepted row's key plus 1 (or 1
for the first accepted row), the filled key is appended to the key list,
and the filled value is written back into the worksheet's first column;
the `[⟨pk:null,v:1⟩, ⟨pk:null,v:2⟩]` surface against an empty table
stores rows keyed 1 and 2 in order and writes 1 and 2 back. -/
theorem claim_C4 :
    (∀ (o : PyOracle) (cols : List ColumnDef) (names : List PyVal)
        (pkName : PyVal) (datas : List PyDict) (pks : List PyVal)
        (ws : Worksheet) (rowIdx : Nat) (rd : PyDict),
      buildRow o cols names ws rowIdx = .ok (rd, false) →
      dictGet rd pkName = .none →
      ((datas = [] →
        syncRowStep o cols names pkName (datas, pks, ws) rowIdx =
          .ok (datas ++ [dictSet rd pkName (.int 1)], pks ++ [.int 1],
            wsSetCell ws rowIdx 1 (.int 1))) ∧
       (∀ (last : PyDict) (filled : PyVal),
        datas.getLast? = some last →
        pyAdd1 (dictGetD last pkName (.int 0)) = .ok filled →
        syncRowStep o cols names pkName (datas, pks, ws) rowIdx =
          .ok (datas ++ [dictSet rd pkName filled], pks ++ [filled],
            wsSetCell ws rowIdx 1 filled)))) ∧
    (sync_excel_to_yaml_internal pyOracle0 tblAuto wsAuto pkEmpty).toOption.map
        (fun r => (r.1.data, r.2.1.cell 4 1, r.2.1.cell 5 1)) =
      some ([[(.str "pk", .int 1), (.str "v", .int 1)],
             [(.str "pk", .int 2), (.str "v", .int 2)]],
            .int 1, .int 2) := by
  constructor
  · intro o cols names pkName datas pks ws rowIdx rd hb hget
    constructor
    · intro hd
      subst hd
      unfold syncRowStep
      simp only [hb, hget, dictGet_set]
      rfl
    · intro last filled hlast hadd
      unfold syncRowStep
      simp only [hb, hget, hlast, hadd, dictGet_set]
      rfl
  · rfl

/-- Witness for C4: the first accepted row of the scenario, with its
empty key cell, is stored with key 1 and 1 is written back. -/
theorem claim_C4_witness :
    syncRowStep pyOracle0 tblAuto.columns [.str "pk", .str "v"] (.str "pk")
      ([], [], wsAuto) 4 =
      .ok (([] : List PyDict) ++
          [dictSet [(.str "pk", PyVal.none), (.str "v", .int 1)]
            (.str "pk") (.int 1)],
        ([] : List PyVal) ++ [.int 1], wsSetCell wsAuto 4 1 (.int 1)) :=
  (claim_C4.1 pyOracle0 tblAuto.columns [.str "pk", .str "v"] (.str "pk")
    [] [] wsAuto 4 [(.str "pk", PyVal.none), (.str "v", .int 1)]
    rfl rfl).1 rfl

/-- Table and surface of the column-matching scenario: schema columns
`id`/`val`, edited headers `id`/`x`. -/
def tblPos : ConfigTable :=
  { table_name := "t", group_name := "g", key_type := .GROUP
    columns := [{ name := "id", type := "int" },
                { name := "val", type := "string" }]
    data := [] }

def wsPos : Worksheet :=
  { maxRow := 4, maxCol := 2
    cell := fun r c =>
      if r = 1 ∧ c = 1 then .str "id" else if r = 1 ∧ c = 2 then .str "x"
      else if r = 4 ∧ c = 1 then .int 1
      else if r = 4 ∧ c = 2 then .str "hello" else .none }

/-- C7 counterexample: with headers `id`/`x` against schema `id`/`val`,
the stored row keeps the unknown header `x` (coerced by the second
schema column) and has no `val` field at all — not the name-matched row
`[(id,1), (val,null)]` the claim demands, so matching is not by name. -/
theorem claim_C7_counterexample :
    (sync_excel_to_yaml_internal pyOracle0 tblPos wsPos pkEmpty).toOption.map
        (fun r => r.1.data) =
      some [[(.str "id", .int 1), (.str "x", .str "hello")]] ∧
    ([[(PyVal.str "id", PyVal.int 1), (PyVal.str "x", PyVal.str "hello")]] :
        List PyDict) ≠
      [[(PyVal.str "id", PyVal.int 1), (PyVal.str "val", PyVal.none)]] := by
  constructor
  · rfl
  · intro hcontra
    simp at hcontra

/-- C7 (amended): column matching is positional, not by name — for
pairwise-distinct collected headers, the stored row binds the i-th
header name to the i-th schema column's coercion of the i-th worksheet
column's cell (`posRowVals`), and the row's keys are exactly the header
names in order; schema columns beyond the headers do not appear. -/
theorem claim_C7_amended :
    ∀ (o : PyOracle) (cols : List ColumnDef) (names : List PyVal)
      (ws : Worksheet) (rowIdx : Nat) (rd : PyDict) (emp : Bool),
      List.Pairwise (fun a b => pyBeq a b = false) names →
      buildRow o cols names ws rowIdx = .ok (rd, emp) →
      posRowVals o cols ws rowIdx names 1 = .ok rd ∧
      rd.map Prod.fst = names := by
  intro o cols names ws rowIdx rd emp hpw hb
  obtain ⟨tl, htl, hrd⟩ := buildRowAux_pos names 1 [] true rd emp hpw
    (by simp) hb
  have hrd2 : rd = tl := by rw [hrd]; rfl
  rw [hrd2]
  exact ⟨htl, posRowVals_keys names 1 tl htl⟩

/-- Witness for C7 (amended): the scenario row is exactly the positional
binding and its keys are the headers `id`, `x`. -/
theorem claim_C7_witness :
    posRowVals pyOracle0 tblPos.columns wsPos 4 [.str "id", .str "x"] 1 =
      .ok [(.str "id", .int 1), (.str "x", .str "hello")] ∧
    ([(.str "id", .int 1), (.str "x", .str "hello")] : PyDict).map Prod.fst =
      [.str "id", .str "x"] :=
  claim_C7_amended pyOracle0 tblPos.columns [.str "id", .str "x"] wsPos 4
    [(.str "id", .int 1), (.str "x", .str "hello")] false (by decide) rfl

/-- Table and surface of the idempotence scenario: the surface parses to
exactly the stored rows. -/
def tblIdem : ConfigTable :=
  { table_name := "t", group_name := "g", key_type := .GROUP
    columns := [{ name := "id", type := "int" }, { name := "val", type := "int" }]
    data := [[(.str "id", .int 1), (.str "val", .int 10)]] }

def wsIdem : Worksheet :=
  { maxRow := 4, maxCol := 2
    cell := fun r c =>
      if r = 1 ∧ c = 1 then .str "id" else if r = 1 ∧ c = 2 then .str "val"
      else if r = 4 ∧ c = 1 then .int 1 else if r = 4 ∧ c = 2 then .int 10
      else .none }

/-- A surface whose single stored row's primary-key field is the
(unhashable) list `[5]`, exactly matched by the edited surface: the
`List<int>`-typed key column coerces the cell `5` to `[5]`. -/
def tblIdemL : ConfigTable :=
  { table_name := "t", group_name := "g", key_type := .GROUP
    columns := [{ name := "id", type := "List<int>" }]
    data := [[(.str "id", .list [.int 5])]] }

def wsIdemL : Worksheet :=
  { maxRow := 4, maxCol := 1
    cell := fun r c =>
      if r = 1 ∧ c = 1 then .str "id"
      else if r = 4 ∧ c = 1 then .int 5
      else .none }

/-- C9 counterexample: the surface parses to exactly the stored rows and
the duplicate scan would find nothing, yet reconciliation is not a
successful no-op — it raises `TypeError` when the `Counter` hashes the
list-valued key, so the claim fails on batches with unhashable keys. -/
theorem claim_C9_counterexample :
    processRows pyOracle0 tblIdemL.columns (readColumnNames wsIdemL)
      (.str "id") wsIdemL =
      .ok (tblIdemL.data, [PyVal.list [.int 5]], wsIdemL) ∧
    findDup [PyVal.list [.int 5]] = Option.none ∧
    sync_excel_to_yaml_internal pyOracle0 tblIdemL wsIdemL pkEmpty =
      .error ("TypeError: unhashable type: 'list'", pkEmpty) ∧
    (Except.error ("TypeError: unhashable type: 'list'", pkEmpty) ≠
      (.ok (tblIdemL, wsIdemL, pkEmpty) :
        Except (String × PkCache) (ConfigTable × Worksheet × PkCache))) := by
  refine ⟨rfl, rfl, rfl, ?_⟩
  simp

/-- C9 (amended): reconciling a surface whose accepted rows equal the
table's current rows, with every batch key value hashable, succeeds,
returns the table with its rows unchanged (same content and order), and
returns the cache state exactly as it was: the computed removed and
added key sets are both empty.  (With an unhashable key value the run
instead raises `TypeError` at the `Counter`, still writing nothing.) -/
theorem claim_C9_amended :
    ∀ (o : PyOracle) (table : ConfigTable) (ws : Worksheet) (st : PkCache)
      (pkCol : ColumnDef) (rest : List ColumnDef) (pks : List PyVal)
      (ws2 : Worksheet),
      table.columns = pkCol :: rest →
      processRows o table.columns (readColumnNames ws) (.str pkCol.name) ws
        = .ok (table.data, pks, ws2) →
      pks.all pyScalar = true →
      findDup pks = Option.none →
      sync_excel_to_yaml_internal o table ws st = .ok (table, ws2, st) := by
  intro o table ws st pkCol rest pks ws2 hcols hproc hall hdup
  have hpks : pks = table.data.map (fun r => dictGet r (.str pkCol.name)) :=
    processRows_pks hproc
  have hfind : pks.find? (fun x => !pyScalar x) = Option.none := by
    rw [List.find?_eq_none]
    intro x hx
    simp [List.all_eq_true.mp hall x hx]
  have hfdH : findDupH pks = .ok Option.none := by
    unfold findDupH
    rw [hfind, hdup]
  have hsetH : pySetH (pks.filter
      (fun v => !(pyIsNone v || pyBeq v (PyVal.str "")))) =
      .ok (pyFirsts (pks.filter
        (fun v => !(pyIsNone v || pyBeq v (PyVal.str ""))))) := by
    unfold pySetH
    rw [List.find?_eq_none.mpr ?_]
    intro x hx
    simp [List.all_eq_true.mp hall x (List.mem_filter.mp hx).1]
  obtain ⟨tn, gn, kt, cols, data⟩ := table
  simp only at hcols hproc hpks
  subst hcols
  unfold sync_excel_to_yaml_internal
  simp only [hproc, hfdH]
  rw [hpks] at hsetH ⊢
  simp only [hsetH]
  rw [pySetDiff_self]
  rfl

/-- Witness for C9 (amended): a one-row table reconciled against its own
surface, starting from a cache that already holds the row's key, comes
back with rows and cache untouched. -/
theorem claim_C9_witness :
    sync_excel_to_yaml_internal pyOracle0 tblIdem wsIdem stGroup5 =
      .ok (tblIdem, wsIdem, stGroup5) :=
  claim_C9_amended pyOracle0 tblIdem wsIdem stGroup5
    { name := "id", type := "int" } [{ name := "val", type := "int" }]
    [.int 1] wsIdem rfl rfl rfl rfl

/-! ## Binary codec (`src/utils/binary_exporter.py`)

The serializer is embedded byte-exactly.  Two library behaviours are
abstracted as parameters: `struct.pack("<f", ·)` (the IEEE-754 binary32
conversion) as `f32 : Rat → List Nat`, and AES-256-CBC encryption as
`aes : key → iv → padded-plaintext → ciphertext` together with the random
16-byte `iv` from `os.urandom`. -/

/-- Little-endian 4-byte image of a number below `2^32`. -/
def le4 (n : Nat) : List Nat :=
  [n % 256, n / 256 % 256, n / 2 ^ 16 % 256, n / 2 ^ 24 % 256]

/-- `struct.pack("<I", n)`: raises for values outside 32 bits. -/
def packU32 (n : Nat) : Except String (List Nat) :=
  if n < 2 ^ 32 then .ok (le4 n)
  else .error "struct.error: argument out of range"

/-- `struct.pack("<i", n)`: two's-complement little-endian, raising
outside the signed 32-bit range. -/
def packI32 (n : Int) : Except String (List Nat) :=
  if -(2 ^ 31) ≤ n ∧ n < 2 ^ 31 then .ok (le4 (n.emod (2 ^ 32)).toNat)
  else .error "struct.error: argument out of range"

/-- UTF-8 bytes of one character. -/
def utf8Char (c : Char) : List Nat :=
  let n := c.toNat
  if n < 0x80 then [n]
  else if n < 0x800 then
    [0xC0 ||| (n >>> 6), 0x80 ||| (n &&& 0x3F)]
  else if n < 0x10000 then
    [0xE0 ||| (n >>> 12), 0x80 ||| ((n >>> 6) &&& 0x3F),
     0x80 ||| (n &&& 0x3F)]
  else
    [0xF0 ||| (n >>> 18), 0x80 ||| ((n >>> 12) &&& 0x3F),
     0x80 ||| ((n >>> 6) &&& 0x3F), 0x80 ||| (n &&& 0x3F)]

/-- `s.encode("utf-8")`. -/
def utf8Str (s : String) : List Nat := s.data.flatMap utf8Char

/-- `_write_string` (lines 161–173): 4-byte little-endian length, then
the UTF-8 bytes, no terminator. -/
def writeString (s : String) : Except String (List Nat) :=
  match packU32 (utf8Str s).length with
  | .error e => .error e
  | .ok lenb => .ok (lenb ++ utf8Str s)

/-- The source's `value_type[4:-1]` slice used for list element types
(line 154).  On the documented `List<T>` syntax this keeps the `<`:
`"List<int>"[4:-1] == "<int"`. -/
def listElemTypeSlice (t : String) : String :=
  String.mk ((t.data.drop 4).dropLast)

/-- The source's `value_type[11:-1]` slice used for dictionary key/value
types (line 156): `"Dictionary<int,string>"[11:-1] == "int,string"`. -/
def dictKVSlice (t : String) : String :=
  String.mk ((t.data.drop 11).dropLast)

/-- Python `str.split(",")`. -/
def splitCommaAux : List Char → List Char → List (List Char)
  | [], acc => [acc.reverse]
  | ch :: rest, acc =>
      if ch = ',' then acc.reverse :: splitCommaAux rest []
      else splitCommaAux rest (ch :: acc)

def splitComma (s : String) : List String :=
  (splitCommaAux s.data []).map String.mk

/-! `_write_value` / `_write_list` / `_write_dict` (lines 125–206).  The
null flag byte 0 is written for `None` regardless of type; otherwise the
flag byte 1 precedes the typed encoding.  A non-list value in a
`List`-typed column (resp. non-dict in a `Dictionary` column) is
embedded as a `TypeError`; CPython would instead iterate whatever
`len()`-capable object it got — no claim exercises that path. -/
mutual
def writeValue (o : PyOracle) (f32 : Rat → List Nat) :
    PyVal → String → Except String (List Nat)
  | .none, _ => .ok [0]
  | v, t =>
      if t = "int" then
        match pyToInt v with
        | .error e => .error e
        | .ok n =>
            match packI32 n with
            | .error e => .error e
            | .ok b => .ok (1 :: b)
      else if t = "float" then
        match pyToFloat o v with
        | .error e => .error e
        | .ok q => .ok (1 :: f32 q)
      else if t = "string" then
        match writeString (pyStr o v) with
        | .error e => .error e
        | .ok b => .ok (1 :: b)
      else if t = "bool" then .ok [1, if pyTruthy v then 1 else 0]
      else if strStarts t "List" then
        match v with
        | .list xs =>
            match packU32 xs.length with
            | .error e => .error e
            | .ok cnt =>
                match writeList o f32 xs (listElemTypeSlice t) with
                | .error e => .error e
                | .ok body => .ok (1 :: (cnt ++ body))
        | _ => .error "TypeError: object of wrong type in List column"
      else if strStarts t "Dictionary" then
        match v with
        | .dict xs =>
            match splitComma (dictKVSlice t) with
            | kt :: vt :: _ =>
                match packU32 xs.length with
                | .error e => .error e
                | .ok cnt =>
                    match writeDictPairs o f32 xs kt vt with
                    | .error e => .error e
                    | .ok body => .ok (1 :: (cnt ++ body))
            | _ => .error "IndexError: list index out of range"
        | _ => .error "TypeError: object of wrong type in Dictionary column"
      else
        match writeString (pyStr o v) with
        | .error e => .error e
        | .ok b => .ok (1 :: b)
def writeList (o : PyOracle) (f32 : Rat → List Nat) :
    List PyVal → String → Except String (List Nat)
  | [], _ => .ok []
  | x :: xs, t =>
      match writeValue o f32 x t with
      | .error e => .error e
      | .ok a =>
          match writeList o f32 xs t with
          | .error e => .error e
          | .ok b => .ok (a ++ b)
def writeDictPairs (o : PyOracle) (f32 : Rat → List Nat) :
    List (PyVal × PyVal) → String → String → Except String (List Nat)
  | [], _, _ => .ok []
  | (k, v) :: xs, kt, vt =>
      match writeValue o f32 k kt with
      | .error e => .error e
      | .ok a =>
          match writeValue o f32 v vt with
          | .error e => .error e
          | .ok b =>
              match writeDictPairs o f32 xs kt vt with
              | .error e => .error e
              | .ok cres => .ok (a ++ b ++ cres)
end

/-- One row of `_serialize_table` (lines 118–121): per schema column in
order, `row.get(col.name)` encoded at `col.type`. -/
def serializeRow (o : PyOracle) (f32 : Rat → List Nat) :
    List ColumnDef → PyDict → Except String (List Nat)
  | [], _ => .ok []
  | col :: cols, row =>
      match writeValue o f32 (dictGet row (.str col.name)) col.type with
      | .error e => .error e
      | .ok a =>
          match serializeRow o f32 cols row with
          | .error e => .error e
          | .ok b => .ok (a ++ b)

def serializeRows (o : PyOracle) (f32 : Rat → List Nat)
    (cols : List ColumnDef) : List PyDict → Except String (List Nat)
  | [] => .ok []
  | row :: rows =>
      match serializeRow o f32 cols row with
      | .error e => .error e
      | .ok a =>
          match serializeRows o f32 cols rows with
          | .error e => .error e
          | .ok b => .ok (a ++ b)

/-- `_serialize_table` (lines 100–123): 4-byte little-endian row count,
then the rows. -/
def serialize_table (o : PyOracle) (f32 : Rat → List Nat)
    (table : ConfigTable) : Except String (List Nat) :=
  match packU32 table.data.length with
  | .error e => .error e
  | .ok cnt =>
      match serializeRows o f32 table.columns table.data with
      | .error e => .error e
      | .ok body => .ok (cnt ++ body)

/-- PKCS7 padding to the 128-bit block size: always appends `k` bytes of
value `k`, `1 ≤ k ≤ 16`. -/
def pkcs7pad (d : List Nat) : List Nat :=
  d ++ List.replicate (16 - d.length % 16) (16 - d.length % 16)

/-- The key normalisation of `export_table` (lines 51–55):
`encrypt_key.ljust(32, b'\x00')[:32]` when not already 32 bytes. -/
def padKey (key : List Nat) : List Nat :=
  if key.length = 32 then key
  else (key ++ List.replicate (32 - key.length) 0).take 32

/-- `export_table` (lines 37–65): magic `b"SHET"`, the 4-byte
little-endian length of the encrypted payload, then the payload
`iv ++ AES-CBC(key, iv, PKCS7(plaintext))`. -/
def export_table (o : PyOracle) (f32 : Rat → List Nat)
    (aes : List Nat → List Nat → List Nat → List Nat) (iv : List Nat)
    (table : ConfigTable) (encrypt_key : List Nat) :
    Except String (List Nat) :=
  match serialize_table o f32 table with
  | .error e => .error e
  | .ok pt =>
      let payload := iv ++ aes (padKey encrypt_key) iv (pkcs7pad pt)
      match packU32 payload.length with
      | .error e => .error e
      | .ok lenb => .ok ([0x53, 0x48, 0x45, 0x54] ++ lenb ++ payload)

/-! ## A reader following the documented plaintext layout

Modelled from the spec: the repository ships no binary reader (the
generated C# stub's `BinaryConfigReader` lives in the consuming runtime),
so the decoder below follows the documented plaintext layout — presence
flag, int32/float32/bool/length-prefixed string, list as count plus
elements of the list's declared element type (`List<T>` → `T`), map as
count plus key/value pairs of the declared types, unrecognized type as
string representation.  `fdec` abstracts the binary32-to-float read;
`fuel` bounds nesting depth. -/

def readU32 : List Nat → Option (Nat × List Nat)
  | b0 :: b1 :: b2 :: b3 :: rest =>
      some (b0 + 256 * b1 + 65536 * b2 + 16777216 * b3, rest)
  | _ => Option.none

def readI32 (bytes : List Nat) : Option (Int × List Nat) :=
  match readU32 bytes with
  | some (n, rest) =>
      some (if n < 2 ^ 31 then (n : Int) else (n : Int) - 2 ^ 32, rest)
  | Option.none => Option.none

def utf8DecodeAux : Nat → List Nat → Option (List Char)
  | _, [] => some []
  | 0, _ :: _ => Option.none
  | fuel + 1, b :: rest =>
      if b < 0x80 then
        (utf8DecodeAux fuel rest).map (fun cs => Char.ofNat b :: cs)
      else if b < 0xE0 then
        match rest with
        | b2 :: r2 =>
            (utf8DecodeAux fuel r2).map (fun cs =>
              Char.ofNat (((b &&& 0x1F) <<< 6) ||| (b2 &&& 0x3F)) :: cs)
        | _ => Option.none
      else if b < 0xF0 then
        match rest with
        | b2 :: b3 :: r3 =>
            (utf8DecodeAux fuel r3).map (fun cs =>
              Char.ofNat (((b &&& 0x0F) <<< 12) ||| ((b2 &&& 0x3F) <<< 6)
                ||| (b3 &&& 0x3F)) :: cs)
        | _ => Option.none
      else
        match rest with
        | b2 :: b3 :: b4 :: r4 =>
            (utf8DecodeAux fuel r4).map (fun cs =>
              Char.ofNat (((b &&& 0x07) <<< 18) ||| ((b2 &&& 0x3F) <<< 12)
                ||| ((b3 &&& 0x3F) <<< 6) ||| (b4 &&& 0x3F)) :: cs)
        | _ => Option.none

def specReadString (bytes : List Nat) : Option (PyVal × List Nat) :=
  match readU32 bytes with
  | some (len, r) =>
      if r.length < len then Option.none
      else
        match utf8DecodeAux len (r.take len) with
        | some cs => some (.str (String.mk cs), r.drop len)
        | Option.none => Option.none
  | Option.none => Option.none

mutual
def specReadValue (fdec : List Nat → Rat) :
    Nat → String → List Nat → Option (PyVal × List Nat)
  | 0, _, _ => Option.none
  | fuel + 1, t, bytes =>
      match bytes with
      | 0 :: rest => some (.none, rest)
      | 1 :: rest =>
          if t = "int" then
            match readI32 rest with
            | some (n, r) => some (.int n, r)
            | Option.none => Option.none
          else if t = "float" then
            match rest with
            | b0 :: b1 :: b2 :: b3 :: r =>
                some (.float (fdec [b0, b1, b2, b3]), r)
            | _ => Option.none
          else if t = "string" then specReadString rest
          else if t = "bool" then
            match rest with
            | b :: r => some (.bool (b ≠ 0), r)
            | _ => Option.none
          else if strStarts t "List" then
            match readU32 rest with
            | some (cnt, r) =>
                match specReadList fdec fuel cnt
                    (String.mk ((t.data.drop 5).dropLast)) r with
                | some (vs, r2) => some (.list vs, r2)
                | Option.none => Option.none
            | Option.none => Option.none
          else if strStarts t "Dictionary" then
            match splitComma (String.mk ((t.data.drop 11).dropLast)) with
            | kt :: vt :: _ =>
                match readU32 rest with
                | some (cnt, r) =>
                    match specReadPairs fdec fuel cnt kt vt r with
                    | some (ps, r2) => some (.dict ps, r2)
                    | Option.none => Option.none
                | Option.none => Option.none
            | _ => Option.none
          else specReadString rest
      | _ => Option.none
def specReadList (fdec : List Nat → Rat) :
    Nat → Nat → String → List Nat → Option (List PyVal × List Nat)
  | _, 0, _, bytes => some ([], bytes)
  | 0, _ + 1, _, _ => Option.none
  | fuel + 1, n + 1, t, bytes =>
      match specReadValue fdec fuel t bytes with
      | some (v, r) =>
          match specReadList fdec fuel n t r with
          | some (vs, r2) => some (v :: vs, r2)
          | Option.none => Option.none
      | Option.none => Option.none
def specReadPairs (fdec : List Nat → Rat) :
    Nat → Nat → String → String → List Nat →
      Option (List (PyVal × PyVal) × List Nat)
  | _, 0, _, _, bytes => some ([], bytes)
  | 0, _ + 1, _, _, _ => Option.none
  | fuel + 1, n + 1, kt, vt, bytes =>
      match specReadValue fdec fuel kt bytes with
      | some (k, r) =>
          match specReadValue fdec fuel vt r with
          | some (v, r2) =>
              match specReadPairs fdec fuel n kt vt r2 with
              | some (ps, r3) => some ((k, v) :: ps, r3)
              | Option.none => Option.none
          | Option.none => Option.none
      | Option.none => Option.none
end

def specReadRow (fdec : List Nat → Rat) (fuel : Nat) :
    List String → List Nat → Option (List PyVal × List Nat)
  | [], bytes => some ([], bytes)
  | t :: ts, bytes =>
      match specReadValue fdec fuel t bytes with
      | some (v, r) =>
          match specReadRow fdec fuel ts r with
          | some (vs, r2) => some (v :: vs, r2)
          | Option.none => Option.none
      | Option.none => Option.none

def specReadRows (fdec : List Nat → Rat) (fuel : Nat) (ts : List String) :
    Nat → List Nat → Option (List (List PyVal) × List Nat)
  | 0, bytes => some ([], bytes)
  | n + 1, bytes =>
      match specReadRow fdec fuel ts bytes with
      | some (row, r) =>
          match specReadRows fdec fuel ts n r with
          | some (rows, r2) => some (row :: rows, r2)
          | Option.none => Option.none
      | Option.none => Option.none

/-- Modelled from the spec: decode a serialized plaintext with the
documented layout — row count, then per row, per column the typed value. -/
def specDecodeTable (fdec : List Nat → Rat) (fuel : Nat) (ts : List String)
    (bytes : List Nat) : Option (List (List PyVal)) :=
  match readU32 bytes with
  | some (cnt, r) =>
      match specReadRows fdec fuel ts cnt r with
      | some (rows, _) => some rows
      | Option.none => Option.none
  | Option.none => Option.none

/-- A table with a `List<int>` column (the documented complex-type
syntax), one row holding `[7]`. -/
def tblList : ConfigTable :=
  { table_name := "t", group_name := "g", key_type := .GROUP
    columns := [{ name := "id", type := "int" },
                { name := "xs", type := "List<int>" }]
    data := [[(.str "id", .int 1), (.str "xs", .list [.int 7])]] }

/-- C6: the claimed encode-then-decode round trip fails.  The exporter
slices the list element type as `value_type[4:-1]`, so a `List<int>`
column recurses at type `"<int"` — an unrecognized type — and the
element 7 is written as the string `"7"` instead of a 4-byte int.  A
reader following the documented layout then consumes the string's
length field as the element: the row decodes to `[1, [1]]`, not the
original `[1, [7]]`. -/
theorem claim_C6_bug :
    listElemTypeSlice "List<int>" = "<int" ∧
    (serialize_table pyOracle0 (fun _ => [0, 0, 0, 0]) tblList).toOption.map
        (specDecodeTable (fun _ => 0) 100 ["int", "List<int>"]) =
      some (some [[PyVal.int 1, PyVal.list [PyVal.int 1]]]) ∧
    PyVal.list [PyVal.int 1] ≠ PyVal.list [PyVal.int 7] := by
  refine ⟨rfl, rfl, ?_⟩
  simp

theorem list_not_of_dict {t : String}
    (h : strStarts t "Dictionary" = true) : strStarts t "List" = false := by
  have key : ∀ (l : List Char),
      List.isPrefixOf ['D', 'i', 'c', 't', 'i', 'o', 'n', 'a', 'r', 'y'] l
        = true →
      List.isPrefixOf ['L', 'i', 's', 't'] l = false := by
    intro l hl
    cases l with
    | nil => simp [List.isPrefixOf] at hl
    | cons a l2 =>
        simp only [List.isPrefixOf, Bool.and_eq_true, beq_iff_eq] at hl
        obtain ⟨h1, -⟩ := hl
        subst h1
        simp [List.isPrefixOf, show ('L' == 'D') = false from rfl]
  exact key t.data h

theorem packU32_eq {n : Nat} (h : n < 2 ^ 32) : packU32 n = .ok (le4 n) := by
  unfold packU32
  rw [if_pos h]

theorem writeString_eq {s : String} (h : (utf8Str s).length < 2 ^ 32) :
    writeString s = .ok (le4 (utf8Str s).length ++ utf8Str s) := by
  unfold writeString
  rw [packU32_eq h]

/-- C5: the export container is the 4 magic bytes `SHET`, the 4-byte
little-endian length of the encrypted payload, then the payload
`iv ++ AES-CBC(key32, iv, PKCS7(plaintext))`; `key32` is the key
right-padded with zeros and truncated to 32 bytes when not exactly 32;
PKCS7 appends 1–16 bytes to a 16-multiple; the plaintext is the 4-byte
little-endian row count followed per row, per schema column in order, by
a presence flag (0 for null, nothing following) and the typed encoding —
int as 4-byte little-endian two's complement, float as the 4 bytes of the
single-precision packer, bool as one byte of truthiness, string as 4-byte
length plus UTF-8 bytes, list as 4-byte count plus recursive element
encodings, map as 4-byte count plus recursive key/value pairs, and any
unrecognized type as its string representation. -/
theorem claim_C5 :
    (∀ (o : PyOracle) (f32 : Rat → List Nat)
        (aes : List Nat → List Nat → List Nat → List Nat)
        (iv : List Nat) (table : ConfigTable) (key : List Nat)
        (pt : List Nat),
      serialize_table o f32 table = .ok pt →
      (iv ++ aes (padKey key) iv (pkcs7pad pt)).length < 2 ^ 32 →
      export_table o f32 aes iv table key =
        .ok ([0x53, 0x48, 0x45, 0x54] ++
          le4 (iv ++ aes (padKey key) iv (pkcs7pad pt)).length ++
          (iv ++ aes (padKey key) iv (pkcs7pad pt)))) ∧
    (∀ (key : List Nat), key.length ≠ 32 →
      padKey key = (key ++ List.replicate (32 - key.length) 0).take 32) ∧
    (∀ (key : List Nat), key.length = 32 → padKey key = key) ∧
    (∀ (d : List Nat),
      pkcs7pad d =
        d ++ List.replicate (16 - d.length % 16) (16 - d.length % 16) ∧
      1 ≤ 16 - d.length % 16 ∧ 16 - d.length % 16 ≤ 16 ∧
      (pkcs7pad d).length % 16 = 0) ∧
    (∀ (o : PyOracle) (f32 : Rat → List Nat) (table : ConfigTable)
        (pt : List Nat),
      serialize_table o f32 table = .ok pt →
      ∃ body, serializeRows o f32 table.columns table.data = .ok body ∧
        table.data.length < 2 ^ 32 ∧
        pt = le4 table.data.length ++ body) ∧
    (∀ (o : PyOracle) (f32 : Rat → List Nat) (cols : List ColumnDef)
        (row : PyDict) (rows : List PyDict) (a b : List Nat),
      serializeRow o f32 cols row = .ok a →
      serializeRows o f32 cols rows = .ok b →
      serializeRows o f32 cols (row :: rows) = .ok (a ++ b)) ∧
    (∀ (o : PyOracle) (f32 : Rat → List Nat) (col : ColumnDef)
        (cols : List ColumnDef) (row : PyDict) (a b : List Nat),
      writeValue o f32 (dictGet row (.str col.name)) col.type = .ok a →
      serializeRow o f32 cols row = .ok b →
      serializeRow o f32 (col :: cols) row = .ok (a ++ b)) ∧
    (∀ (o : PyOracle) (f32 : Rat → List Nat) (t : String),
      writeValue o f32 .none t = .ok [0]) ∧
    (∀ (o : PyOracle) (f32 : Rat → List Nat) (v : PyVal) (n : Int)
        (b : List Nat),
      pyIsNone v = false → pyToInt v = .ok n → packI32 n = .ok b →
      writeValue o f32 v "int" = .ok (1 :: b)) ∧
    (∀ (n : Int), -(2 ^ 31) ≤ n → n < 2 ^ 31 →
      packI32 n = .ok (le4 (n.emod (2 ^ 32)).toNat)) ∧
    (∀ (o : PyOracle) (f32 : Rat → List Nat) (v : PyVal) (q : Rat),
      pyIsNone v = false → pyToFloat o v = .ok q →
      writeValue o f32 v "float" = .ok (1 :: f32 q)) ∧
    (∀ (o : PyOracle) (f32 : Rat → List Nat) (v : PyVal),
      pyIsNone v = false →
      writeValue o f32 v "bool" = .ok [1, if pyTruthy v then 1 else 0]) ∧
    (∀ (o : PyOracle) (f32 : Rat → List Nat) (v : PyVal),
      pyIsNone v = false → (utf8Str (pyStr o v)).length < 2 ^ 32 →
      writeValue o f32 v "string" =
        .ok (1 :: (le4 (utf8Str (pyStr o v)).length ++
          utf8Str (pyStr o v)))) ∧
    (∀ (o : PyOracle) (f32 : Rat → List Nat) (t : String) (xs : List PyVal)
        (body : List Nat),
      strStarts t "List" = true → xs.length < 2 ^ 32 →
      writeList o f32 xs (listElemTypeSlice t) = .ok body →
      writeValue o f32 (.list xs) t = .ok (1 :: (le4 xs.length ++ body))) ∧
    (∀ (o : PyOracle) (f32 : Rat → List Nat) (x : PyVal) (xs : List PyVal)
        (t : String) (a b : List Nat),
      writeValue o f32 x t = .ok a → writeList o f32 xs t = .ok b →
      writeList o f32 (x :: xs) t = .ok (a ++ b)) ∧
    (∀ (o : PyOracle) (f32 : Rat → List Nat) (t kt vt : String)
        (rest2 : List String) (xs : List (PyVal × PyVal)) (body : List Nat),
      strStarts t "Dictionary" = true →
      splitComma (dictKVSlice t) = kt :: vt :: rest2 →
      xs.length < 2 ^ 32 →
      writeDictPairs o f32 xs kt vt = .ok body →
      writeValue o f32 (.dict xs) t = .ok (1 :: (le4 xs.length ++ body))) ∧
    (∀ (o : PyOracle) (f32 : Rat → List Nat) (k v : PyVal)
        (xs : List (PyVal × PyVal)) (kt vt : String) (a b cres : List Nat),
      writeValue o f32 k kt = .ok a → writeValue o f32 v vt = .ok b →
      writeDictPairs o f32 xs kt vt = .ok cres →
      writeDictPairs o f32 ((k, v) :: xs) kt vt = .ok (a ++ b ++ cres)) ∧
    (∀ (o : PyOracle) (f32 : Rat → List Nat) (v : PyVal) (t : String),
      pyIsNone v = false →
      t ≠ "int" → t ≠ "float" → t ≠ "string" → t ≠ "bool" →
      strStarts t "List" = false → strStarts t "Dictionary" = false →
      (utf8Str (pyStr o v)).length < 2 ^ 32 →
      writeValue o f32 v t =
        .ok (1 :: (le4 (utf8Str (pyStr o v)).length ++
          utf8Str (pyStr o v)))) := by
  refine ⟨?_, ?_, ?_, ?_, ?_, ?_, ?_, ?_, ?_, ?_, ?_, ?_, ?_, ?_, ?_, ?_,
    ?_, ?_⟩
  · intro o f32 aes iv table key pt hser hlen
    unfold export_table
    simp only [hser]
    unfold packU32
    rw [if_pos hlen]
  · intro key h
    unfold padKey
    rw [if_neg h]
  · intro key h
    unfold padKey
    rw [if_pos h]
  · intro d
    have hm : d.length % 16 < 16 := Nat.mod_lt _ (by norm_num)
    refine ⟨rfl, by omega, by omega, ?_⟩
    unfold pkcs7pad
    rw [List.length_append, List.length_replicate]
    omega
  · intro o f32 table pt hser
    unfold serialize_table at hser
    unfold packU32 at hser
    by_cases hlen : table.data.length < 2 ^ 32
    · rw [if_pos hlen] at hser
      cases hrows : serializeRows o f32 table.columns table.data with
      | error e =>
          simp only [hrows] at hser
          exact Except.noConfusion hser
      | ok body =>
          simp only [hrows] at hser
          injection hser with hser
          exact ⟨body, rfl, hlen, hser.symm⟩
    · rw [if_neg hlen] at hser
      exact Except.noConfusion hser
  · intro o f32 cols row rows a b h1 h2
    unfold serializeRows
    simp only [h1, h2]
  · intro o f32 col cols row a b h1 h2
    unfold serializeRow
    simp only [h1, h2]
  · intro o f32 t
    rfl
  · intro o f32 v n b hn hto hpack
    cases v <;> first
      | (simp [pyIsNone] at hn; done)
      | simp [writeValue, hto, hpack]
  · intro n h1 h2
    unfold packI32
    rw [if_pos ⟨h1, h2⟩]
  · intro o f32 v q hn hto
    cases v <;> first
      | (simp [pyIsNone] at hn; done)
      | simp [writeValue, hto]
  · intro o f32 v hn
    cases v <;> first
      | (simp [pyIsNone] at hn; done)
      | simp [writeValue]
  · intro o f32 v hn hlen
    cases v <;> first
      | (simp [pyIsNone] at hn; done)
      | simp [writeValue, writeString_eq hlen]
  · intro o f32 t xs body hstar hxs hbody
    have h1 : t ≠ "int" := by rintro rfl; exact absurd hstar (by decide)
    have h2 : t ≠ "float" := by rintro rfl; exact absurd hstar (by decide)
    have h3 : t ≠ "string" := by rintro rfl; exact absurd hstar (by decide)
    have h4 : t ≠ "bool" := by rintro rfl; exact absurd hstar (by decide)
    simp [writeValue, packU32_eq hxs, h1, h2, h3, h4, hstar, hbody]
  · intro o f32 x xs t a b h1 h2
    unfold writeList
    simp only [h1, h2]
  · intro o f32 t kt vt rest2 xs body hstar hsplit hxs hbody
    have h1 : t ≠ "int" := by rintro rfl; exact absurd hstar (by decide)
    have h2 : t ≠ "float" := by rintro rfl; exact absurd hstar (by decide)
    have h3 : t ≠ "string" := by rintro rfl; exact absurd hstar (by decide)
    have h4 : t ≠ "bool" := by rintro rfl; exact absurd hstar (by decide)
    have h5 : strStarts t "List" = false := list_not_of_dict hstar
    simp [writeValue, packU32_eq hxs, h1, h2, h3, h4, h5, hstar, hsplit,
      hbody]
  · intro o f32 k v xs kt vt a b cres h1 h2 h3
    unfold writeDictPairs
    simp only [h1, h2, h3]
  · intro o f32 v t hn h1 h2 h3 h4 h5 h6 hlen
    cases v <;> first
      | (simp [pyIsNone] at hn; done)
      | simp [writeValue, writeString_eq hlen, h1, h2, h3, h4, h5, h6]

/-- Witness for C5: exporting the one-row table with the identity cipher,
a zero IV and an empty key yields exactly the documented container around
the PKCS7-padded plaintext. -/
theorem claim_C5_witness :
    export_table pyOracle0 (fun _ => [0, 0, 0, 0]) (fun _ _ d => d)
      (List.replicate 16 0) tblIdem [] =
      .ok ([0x53, 0x48, 0x45, 0x54] ++
        le4 ((List.replicate 16 0 : List Nat) ++
          pkcs7pad [1, 0, 0, 0, 1, 1, 0, 0, 0, 1, 10, 0, 0, 0]).length ++
        ((List.replicate 16 0 : List Nat) ++
          pkcs7pad [1, 0, 0, 0, 1, 1, 0, 0, 0, 1, 10, 0, 0, 0])) :=
  claim_C5.1 pyOracle0 (fun _ => [0, 0, 0, 0]) (fun _ _ d => d)
    (List.replicate 16 0) tblIdem []
    [1, 0, 0, 0, 1, 1, 0, 0, 0, 1, 10, 0, 0, 0] rfl (by decide)

end DataConfigTool